import Mathlib

/-!
Verification of the flood-susceptibility / evacuation repository (gis).

Shallow embedding of the algorithmic core: AHP weight solving (src/ahp.py),
the rainfall multiplier and water masking (src/flood_model.py), river
proximity and D8 flow accumulation (src/hydrology.py), edge penalization and
safe-node labelling (src/road_network.py), and the escape-route search
(src/evacuation.py).  Machine floats are embedded as exact rationals (ℚ),
or reals (ℝ) where the code takes real powers / square roots; Python
`round` is modelled as round-half-to-even on rationals.
-/

set_option maxHeartbeats 1600000
set_option maxRecDepth 8000

namespace GisSpec

/-! ## Definitions -/

/-- Python `round(x)` on a rational: round half to even (banker's rounding). -/
def pyRoundInt (x : ℚ) : ℤ :=
  let f : ℤ := Int.floor x
  let r : ℚ := x - f
  if r < 1/2 then f
  else if 1/2 < r then f + 1
  else if f % 2 = 0 then f else f + 1

/-- Python `round(x, 4)`: round to 4 decimal places, half to even. -/
def pyRound4 (x : ℚ) : ℚ := (pyRoundInt (x * 10000) : ℚ) / 10000

/- ### road_network.py: penalize_flooded_edges (C2) -/

/-- A road-graph edge as used by road_network.py: identifying key `(u, v, k)`
and the optional `length` / `flood_risk` data attributes (the code reads them
with `data.get("length", 1)` and `data.get("flood_risk", 0.0)`). -/
structure Edge where
  key : ℕ × ℕ × ℕ
  length : Option ℚ
  flood_risk : Option ℚ
deriving DecidableEq

/-- Edge length as the code reads it: `data.get("length", 1)`. -/
def Edge.lengthOf (e : Edge) : ℚ := e.length.getD 1

/-- Edge flood risk as the code reads it: `data.get("flood_risk", 0.0)`. -/
def Edge.riskOf (e : Edge) : ℚ := e.flood_risk.getD 0

/-- One edge of penalize_flooded_edges: `None` when the edge is removed
(`flood_risk >= remove_threshold`), otherwise the possibly re-weighted edge
(`length *= (1 + risk * penalty_factor)` when `flood_risk > 0`). -/
def penalizeStep (penalty_factor remove_threshold : ℚ) (e : Edge) : Option Edge :=
  if remove_threshold ≤ e.riskOf then none
  else if 0 < e.riskOf then
    some { e with length := some (e.lengthOf * (1 + e.riskOf * penalty_factor)) }
  else some e

/-- penalize_flooded_edges (road_network.py lines 141-163): remove edges with
`flood_risk >= remove_threshold`; scale remaining edges with `flood_risk > 0`
by `length *= (1 + risk * penalty_factor)`. -/
def penalizeFloodedEdges (G : List Edge) (penalty_factor remove_threshold : ℚ) :
    List Edge :=
  G.filterMap (penalizeStep penalty_factor remove_threshold)

/-- config.FLOOD_RISK_PENALTY_FACTOR. -/
def FLOOD_RISK_PENALTY_FACTOR : ℚ := 10

/-- config.HIGH_RISK_ROAD_THRESHOLD. -/
def HIGH_RISK_ROAD_THRESHOLD : ℚ := 66/100

/- ### flood_model.py: apply_water_mask (C7) -/

/-- config.RAIN_MAX. -/
def RAIN_MAX : ℚ := 150

/-- apply_water_mask (flood_model.py lines 83-95): rasters modelled as
cell-indexed maps.  `extreme_threshold = config.RAIN_MAX * 0.3`; if
`rainfall_mm >= extreme_threshold` force FSI to 1.0 wherever the water mask
is positive (`fsi.where(water_mask.gt(0), 1.0)`), otherwise return `fsi`
unchanged. -/
def applyWaterMask (fsi water_mask : ℕ × ℕ → ℚ) (rainfall_mm : ℚ) :
    ℕ × ℕ → ℚ :=
  if RAIN_MAX * (3/10) ≤ rainfall_mm then
    fun c => if 0 < water_mask c then 1 else fsi c
  else fsi

/- ### road_network.py: label_safe_nodes (C10) -/

/-- The inverse affine georeferencing transform (`~transform` in rasterio),
given by its six coefficients: `(x, y) ↦ (a·x + b·y + c, d·x + e·y + f)`,
yielding fractional (column, row) indices. -/
structure InvAffine where
  a : ℚ
  b : ℚ
  c : ℚ
  d : ℚ
  e : ℚ
  f : ℚ

/-- Apply the inverse transform to a coordinate pair, giving (col, row). -/
def InvAffine.apply (T : InvAffine) (x y : ℚ) : ℚ × ℚ :=
  (T.a * x + T.b * y + T.c, T.d * x + T.e * y + T.f)

/-- A single-band raster with its inverse georeferencing transform, as read
by label_safe_nodes via rasterio. -/
structure RasterBand where
  rows : ℕ
  cols : ℕ
  invTransform : InvAffine
  band : ℕ × ℕ → ℚ

/-- label_safe_nodes (road_network.py lines 168-196) applied to one node at
coordinate `(x, y)`: map the coordinate through the inverse transform, round
to the nearest integer cell, read the FSI there (0.0 when out of bounds),
and set `is_safe = fsi < safe_threshold`.  Returns `(fsi, is_safe)`. -/
def labelSafeNode (R : RasterBand) (safe_threshold : ℚ) (x y : ℚ) : ℚ × Bool :=
  let ci : ℤ := pyRoundInt (R.invTransform.apply x y).1
  let ri : ℤ := pyRoundInt (R.invTransform.apply x y).2
  let fsi : ℚ :=
    if 0 ≤ ri ∧ ri < (R.rows : ℤ) ∧ 0 ≤ ci ∧ ci < (R.cols : ℤ) then
      R.band (ri.toNat, ci.toNat)
    else 0
  (fsi, decide (fsi < safe_threshold))

/- ### flood_model.py: apply_rainfall_multiplier (C3) -/

/-- apply_rainfall_multiplier (flood_model.py lines 59-80) at the default
`rain_max = config.RAIN_MAX = 150` and `alpha = config.RAIN_ALPHA = 1.2`:
`rain_ratio = min(rainfall_mm / rain_max, 1.0)`; `rain_factor =
rain_ratio ** alpha` (a real power, hence the ℝ embedding). -/
noncomputable def rainFactor (rainfall_mm : ℝ) : ℝ :=
  (min (rainfall_mm / 150) 1) ^ (1.2 : ℝ)

/-- The multiplier formula as the spec states it, for comparison with
`rainFactor`: `clamp(rain_mm / rain_max, 0, 1) ^ alpha`. -/
noncomputable def rainFactorClaim (rainfall_mm : ℝ) : ℝ :=
  (max 0 (min (rainfall_mm / 150) 1)) ^ (1.2 : ℝ)

/- ### ahp.py: AHP weight derivation (C4, C5, C6) -/

/-- Saaty Random Index lookup, `RI_TABLE.get(n, 1.49)` (ahp.py lines 14-15):
defined for n = 1..10, defaulting to 1.49 elsewhere. -/
def RI_TABLE (n : ℕ) : ℚ :=
  match n with
  | 1 => 0
  | 2 => 0
  | 3 => 58/100
  | 4 => 90/100
  | 5 => 112/100
  | 6 => 124/100
  | 7 => 132/100
  | 8 => 141/100
  | 9 => 145/100
  | 10 => 149/100
  | _ => 149/100

/-- FACTOR_NAMES (ahp.py line 29). -/
def FACTOR_NAMES : List String := ["elevation", "slope", "soil", "river", "flow_accum"]

/-- PAIRWISE_MATRIX (ahp.py lines 31-38), row-major. -/
def PAIRWISE_MATRIX : List (List ℚ) :=
  [[1,   3, 3, 1/2, 1],
   [1/3, 1, 1, 1/4, 1/2],
   [1/3, 1, 1, 1/4, 1/2],
   [2,   4, 4, 1,   2],
   [1,   2, 2, 1/2, 1]]

/-- Column `j` sum of a row-major matrix (`matrix.sum(axis=0)`). -/
def colSum (m : List (List ℚ)) (j : ℕ) : ℚ :=
  (m.map (fun row => row.getD j 0)).sum

/-- One row of the priority vector: the mean over columns of the
column-normalised entries (`(matrix / col_sums).mean(axis=1)`). -/
def priorityRow (m : List (List ℚ)) (row : List ℚ) : ℚ :=
  ((List.range m.length).map (fun j => row.getD j 0 / colSum m j)).sum / m.length

/-- The AHP priority vector (ahp.py lines 59-64). -/
def priority (m : List (List ℚ)) : List ℚ := m.map (priorityRow m)

/-- Computes `weighted = matrix @ priority` (ahp.py line 67). -/
def weighted (m : List (List ℚ)) : List ℚ :=
  m.map (fun row =>
    ((List.range m.length).map
      (fun j => row.getD j 0 * (priority m).getD j 0)).sum)

/-- Computes `lambda_ratios = weighted / priority` (ahp.py line 68). -/
def lambdaRatios (m : List (List ℚ)) : List ℚ :=
  (List.range m.length).map
    (fun i => (weighted m).getD i 0 / (priority m).getD i 0)

/-- Computes `lambda_max = lambda_ratios.mean()` (ahp.py line 69). -/
def lambdaMax (m : List (List ℚ)) : ℚ := (lambdaRatios m).sum / m.length

/-- Computes `CI = (lambda_max - n) / (n - 1)` (ahp.py line 71). -/
def consistencyIndex (m : List (List ℚ)) : ℚ :=
  (lambdaMax m - m.length) / ((m.length : ℚ) - 1)

/-- Computes `CR = CI / RI if RI > 0 else 0` (ahp.py lines 73-74). -/
def consistencyRatio (m : List (List ℚ)) : ℚ :=
  if 0 < RI_TABLE m.length then consistencyIndex m / RI_TABLE m.length else 0

/-- Computes `is_consistent = cr < 0.1` (ahp.py line 76). -/
def isConsistent (m : List (List ℚ)) : Bool := decide (consistencyRatio m < 1/10)

/-- compute_ahp_weights (ahp.py lines 41-89): weights dict (values rounded to
4 decimal places), CI, CR, is_consistent. -/
def computeAhpWeights (m : List (List ℚ)) (names : List String) :
    List (String × ℚ) × ℚ × ℚ × Bool :=
  (names.zip ((priority m).map pyRound4),
   consistencyIndex m, consistencyRatio m, isConsistent m)

/-- Renormalisation step of get_validated_weights (ahp.py lines 103-105):
divide each weight by the current total and round again to 4 decimals. -/
def renormalizeWeights (w : List (String × ℚ)) : List (String × ℚ) :=
  let total := (w.map Prod.snd).sum
  w.map (fun kv => (kv.1, pyRound4 (kv.2 / total)))

/-- get_validated_weights (ahp.py lines 92-106), generalised over the matrix
and names arguments that compute_ahp_weights accepts; the Python entry point
is this applied to the module defaults.  Raising ValueError is modelled as
`Except.error`. -/
def validatedWeights (m : List (List ℚ)) (names : List String) :
    Except String (List (String × ℚ)) :=
  let r := computeAhpWeights m names
  if r.2.2.2 then
    Except.ok (renormalizeWeights r.1)
  else
    Except.error "AHP pairwise matrix is inconsistent. Adjust the comparison matrix."

/-- get_validated_weights as the Python function actually runs: on the
module-level PAIRWISE_MATRIX and FACTOR_NAMES. -/
def getValidatedWeights : Except String (List (String × ℚ)) :=
  validatedWeights PAIRWISE_MATRIX FACTOR_NAMES

/-- Sum of the weight values of a validated-weights result (0 on error). -/
def weightsSum : Except String (List (String × ℚ)) → ℚ
  | Except.ok w => (w.map Prod.snd).sum
  | Except.error _ => 0

/- ### hydrology.py: compute_flow_accumulation (C1) -/

/-- D8 direction offsets (hydrology.py lines 133-137), `(row_offset,
col_offset)`, in source order. -/
def d8Neighbors : List (ℤ × ℤ) :=
  [(-1, -1), (-1, 0), (-1, 1), (0, -1), (0, 1), (1, -1), (1, 0), (1, 1)]

/-- An elevation grid (DEM): dimensions plus the elevation at each
`(row, col)` cell, embedded as exact rationals. -/
structure Dem where
  rows : ℕ
  cols : ℕ
  elev : ℕ × ℕ → ℚ

/-- All cells of a rows × cols grid in row-major flat-index order (the order
of `array.ravel()`): flat index `i` is cell `divmod(i, cols)`. -/
def gridCells (rows cols : ℕ) : List (ℕ × ℕ) :=
  (List.range (rows * cols)).map (fun i => (i / cols, i % cols))

/-- All grid cells of a DEM. -/
def demCells (d : Dem) : List (ℕ × ℕ) := gridCells d.rows d.cols

/-- One iteration of the steepest-descent scan (hydrology.py lines 143-151):
the accumulator is `(steepest_drop, best_idx)`, updated when an in-bounds
neighbour gives a strictly larger drop. -/
def flowDirStep (d : Dem) (r c : ℕ) (acc : ℚ × ℤ) (p : ℕ × ℤ × ℤ) : ℚ × ℤ :=
  if 0 ≤ (r : ℤ) + p.2.1 ∧ (r : ℤ) + p.2.1 < (d.rows : ℤ) ∧
      0 ≤ (c : ℤ) + p.2.2 ∧ (c : ℤ) + p.2.2 < (d.cols : ℤ) then
    if acc.1 < d.elev (r, c) -
        d.elev (((r : ℤ) + p.2.1).toNat, ((c : ℤ) + p.2.2).toNat) then
      (d.elev (r, c) -
        d.elev (((r : ℤ) + p.2.1).toNat, ((c : ℤ) + p.2.2).toNat), (p.1 : ℤ))
    else acc
  else acc

/-- Computes `flow_dir[r, c]` with its steepest drop: fold of `flowDirStep` over the
enumerated neighbour offsets, starting from `(0, -1)`. -/
def flowDirFold (d : Dem) (r c : ℕ) : ℚ × ℤ :=
  d8Neighbors.enum.foldl (flowDirStep d r c) (0, -1)

/-- The downstream neighbour a cell drains to: the neighbour selected by
`flow_dir` when `flow_dir >= 0`, none for a local sink (hydrology.py lines
156-162). -/
def downstream (d : Dem) (cell : ℕ × ℕ) : Option (ℕ × ℕ) :=
  if 0 ≤ (flowDirFold d cell.1 cell.2).2 then
    some
      (((cell.1 : ℤ) +
          (d8Neighbors.getD (flowDirFold d cell.1 cell.2).2.toNat (0, 0)).1).toNat,
       ((cell.2 : ℤ) +
          (d8Neighbors.getD (flowDirFold d cell.1 cell.2).2.toNat (0, 0)).2).toNat)
  else none

/-- Descending-elevation comparison used to model `np.argsort(-dem.ravel())`:
`a` comes before `b` when `elev b ≤ elev a`. -/
def demGE (d : Dem) (a b : ℕ × ℕ) : Prop := d.elev b ≤ d.elev a

instance (d : Dem) : DecidableRel (demGE d) :=
  fun a b => inferInstanceAs (Decidable (d.elev b ≤ d.elev a))

instance (d : Dem) : IsTotal (ℕ × ℕ) (demGE d) := ⟨fun _ _ => le_total _ _⟩

instance (d : Dem) : IsTrans (ℕ × ℕ) (demGE d) :=
  ⟨fun _ _ _ h1 h2 => le_trans h2 h1⟩

/-- The cells in descending elevation order (hydrology.py line 155;
`np.argsort` picks one descending order — which one is immaterial, since
flow only links strictly-descending cells, so when elevations tie the
accumulation result is order-independent). -/
def demOrder (d : Dem) : List (ℕ × ℕ) := (demCells d).insertionSort (demGE d)

/-- One accumulation step (hydrology.py lines 156-162): add the current
cell's accumulation to its downstream neighbour, if it has one. -/
def accumStep (d : Dem) (acc : ℕ × ℕ → ℚ) (cell : ℕ × ℕ) : ℕ × ℕ → ℚ :=
  match downstream d cell with
  | some q => fun x => if x = q then acc x + acc cell else acc x
  | none => acc

/-- compute_flow_accumulation (hydrology.py lines 119-166): start every cell
at 1 and fold the accumulation steps over the descending-elevation order. -/
def flowAccumFun (d : Dem) : ℕ × ℕ → ℚ :=
  (demOrder d).foldl (accumStep d) (fun _ => 1)

/-- No two cells share an elevation (the claim's "no flat regions and no
elevation ties" precondition). -/
def noTies (d : Dem) : Prop :=
  ∀ a ∈ demCells d, ∀ b ∈ demCells d, d.elev a = d.elev b → a = b

/-- Sum of the accumulation raster over all cells
(`compute_flow_accumulation(dem).sum()`). -/
def totalAccum (d : Dem) : ℚ := ((demCells d).map (flowAccumFun d)).sum

/-- Sum of the accumulation raster over the sink cells (cells with
`flow_dir = -1`). -/
def sinkAccum (d : Dem) : ℚ :=
  (((demCells d).filter (fun c => (downstream d c).isNone)).map
    (flowAccumFun d)).sum

/-- The 1×2 DEM `[2, 1]`: the left cell drains into the right one. -/
def demCE : Dem :=
  { rows := 1, cols := 2, elev := fun c => if c = (0, 0) then 2 else 1 }

/-- The accumulation raster after processing only a prefix `p` of the
descending-elevation order (proof scaffolding for the conservation
invariant). -/
def accumAfter (d : Dem) (p : List (ℕ × ℕ)) : ℕ × ℕ → ℚ :=
  p.foldl (accumStep d) (fun _ => 1)

/-- Invariant of the steepest-descent fold: the tracked drop is nonnegative,
and once an index has been selected it designates an in-bounds neighbour at
a strictly positive drop. -/
def FDInv (d : Dem) (r c : ℕ) (acc : ℚ × ℤ) : Prop :=
  0 ≤ acc.1 ∧
  (0 ≤ acc.2 →
    0 < acc.1 ∧
    0 ≤ (r : ℤ) + (d8Neighbors.getD acc.2.toNat (0, 0)).1 ∧
    (r : ℤ) + (d8Neighbors.getD acc.2.toNat (0, 0)).1 < (d.rows : ℤ) ∧
    0 ≤ (c : ℤ) + (d8Neighbors.getD acc.2.toNat (0, 0)).2 ∧
    (c : ℤ) + (d8Neighbors.getD acc.2.toNat (0, 0)).2 < (d.cols : ℤ) ∧
    d.elev (((r : ℤ) + (d8Neighbors.getD acc.2.toNat (0, 0)).1).toNat,
            ((c : ℤ) + (d8Neighbors.getD acc.2.toNat (0, 0)).2).toNat) <
      d.elev (r, c))

/-- Conservation invariant: after processing prefix `p` (with suffix `s`
still to go), the accumulation mass sitting on unprocessed cells plus the
mass already frozen at processed sinks equals the number of cells. -/
def consInv (d : Dem) (p s : List (ℕ × ℕ)) : Prop :=
  (s.map (accumAfter d p)).sum +
    ((p.filter (fun c => (downstream d c).isNone)).map (accumAfter d p)).sum =
  (d.rows * d.cols : ℚ)

/- ### hydrology.py: compute_river_proximity (C8) -/

/-- Squared Euclidean distance between two pixel cells, in pixel units (the
metric of `scipy.ndimage.distance_transform_edt`). -/
def cellDistSq (a b : ℕ × ℕ) : ℤ :=
  ((a.1 : ℤ) - b.1) ^ 2 + ((a.2 : ℤ) - b.2) ^ 2

/-- The water pixels of the rasterized water mask (`water_raster == 1`).
Rasterization of the shapely geometries is an external rasterio call; it is
modelled by the mask function `water`. -/
def waterCells (rows cols : ℕ) (water : ℕ × ℕ → Bool) : List (ℕ × ℕ) :=
  (gridCells rows cols).filter (fun x => water x)

/-- Squared distance from a cell to the nearest water pixel (defined when
the mask has at least one water pixel; 0 as a junk value otherwise). -/
def distSqToWater (rows cols : ℕ) (water : ℕ × ℕ → Bool) (c : ℕ × ℕ) : ℤ :=
  match waterCells rows cols water with
  | [] => 0
  | w :: ws => ws.foldl (fun m x => min m (cellDistSq c x)) (cellDistSq c w)

/-- The exact Euclidean distance transform (`distance_transform_edt`) value
at a cell: distance to the nearest water pixel. -/
noncomputable def distToWater (rows cols : ℕ) (water : ℕ × ℕ → Bool)
    (c : ℕ × ℕ) : ℝ :=
  Real.sqrt ((distSqToWater rows cols water c : ℤ) : ℝ)

/-- Computes `d_max = dist.max()` (hydrology.py line 97). -/
noncomputable def maxDistToWater (rows cols : ℕ) (water : ℕ × ℕ → Bool) : ℝ :=
  ((gridCells rows cols).map (distToWater rows cols water)).foldl max 0

/-- Computes `river_factor = 1 - dist / d_max if d_max > 0 else ones` (hydrology.py
lines 96-101). -/
noncomputable def riverFactor (rows cols : ℕ) (water : ℕ × ℕ → Bool)
    (c : ℕ × ℕ) : ℝ :=
  if 0 < maxDistToWater rows cols water then
    1 - distToWater rows cols water c / maxDistToWater rows cols water
  else 1

/-- compute_river_proximity (hydrology.py lines 47-114) after the grid has
been sized: `none` models an empty water GeoDataFrame (lines 75-78: all-zero
river factor and mask); `some water` models a non-empty collection whose
rasterization is the mask `water`.  Returns (river_factor, water_mask). -/
noncomputable def computeRiverProximity (rows cols : ℕ)
    (waterGdf : Option (ℕ × ℕ → Bool)) : (ℕ × ℕ → ℝ) × (ℕ × ℕ → ℕ) :=
  match waterGdf with
  | none => (fun _ => 0, fun _ => 0)
  | some water =>
      (riverFactor rows cols water, fun c => if water c then 1 else 0)

/- ### evacuation.py: find_escape_route (C9) -/

/-- A road graph as consumed by find_escape_route: node ids with their
`y`/`x` coordinates, `fsi` and `is_safe` attributes (set by
label_safe_nodes), and directed edges `(u, v, length)` — a missing length
attribute is read as 1 (`edge_data.get("length", 1)`). -/
structure RoadGraph where
  nodes : List ℕ
  y : ℕ → ℚ
  x : ℕ → ℚ
  fsi : ℕ → ℚ
  isSafe : ℕ → Bool
  edges : List (ℕ × ℕ × Option ℚ)

/-- One directed hop along a graph edge. -/
def GraphStep (G : RoadGraph) (u v : ℕ) : Prop :=
  ∃ e ∈ G.edges, e.1 = u ∧ e.2.1 = v

/-- heapq's lexicographic comparison on `(f, g, node)` tuples. -/
def entryLEb (a b : ℚ × ℚ × ℕ) : Bool :=
  if a.1 < b.1 then true
  else if b.1 < a.1 then false
  else if a.2.1 < b.2.1 then true
  else if b.2.1 < a.2.1 then false
  else decide (a.2.2 ≤ b.2.2)

/-- Models `heapq.heappop`: remove a least entry (lexicographic on `(f, g, node)`)
from the queue; `none` when the queue is empty. -/
def popMin : List (ℚ × ℚ × ℕ) → Option ((ℚ × ℚ × ℕ) × List (ℚ × ℚ × ℕ))
  | [] => none
  | e :: rest =>
    match popMin rest with
    | none => some (e, [])
    | some (m, r) => if entryLEb e m then some (e, rest) else some (m, e :: r)

/-- Pointwise update of a Python-dict-as-function. -/
def updateFn {β : Type} (f : ℕ → Option β) (n : ℕ) (v : β) : ℕ → Option β :=
  fun m => if m = n then some v else f m

/-- One relaxation of the A* inner loop (evacuation.py lines 116-124): skip
visited neighbours; if the tentative g improves on the recorded one (absent
counts as infinity), record it, record the predecessor, and push
`(tentative_g + h(neighbour), tentative_g, neighbour)`.  The state is
`(open_set, g_scores, came_from)`. -/
def relaxStep (hfn : ℕ → ℚ) (visited : List ℕ) (g : ℚ) (current : ℕ)
    (st : List (ℚ × ℚ × ℕ) × (ℕ → Option ℚ) × (ℕ → Option ℕ))
    (ed : ℕ × ℕ × Option ℚ) :
    List (ℚ × ℚ × ℕ) × (ℕ → Option ℚ) × (ℕ → Option ℕ) :=
  if ed.2.1 ∈ visited then st
  else if (match st.2.1 ed.2.1 with
           | none => true
           | some gv => decide (g + ed.2.2.getD 1 < gv)) then
    (st.1 ++ [(g + ed.2.2.getD 1 + hfn ed.2.1, g + ed.2.2.getD 1, ed.2.1)],
     updateFn st.2.1 ed.2.1 (g + ed.2.2.getD 1),
     updateFn st.2.2 ed.2.1 current)
  else st

/-- Expansion of a freshly finalized node: fold the relaxation over its
out-edges (`G.edges(current, data=True)`). -/
def expandNode (G : RoadGraph) (hfn : ℕ → ℚ) (visited : List ℕ) (g : ℚ)
    (current : ℕ) (rest : List (ℚ × ℚ × ℕ)) (gS : ℕ → Option ℚ)
    (cF : ℕ → Option ℕ) :
    List (ℚ × ℚ × ℕ) × (ℕ → Option ℚ) × (ℕ → Option ℕ) :=
  (G.edges.filter (fun ed => ed.1 = current)).foldl
    (relaxStep hfn visited g current) (rest, gS, cF)

/-- Path reconstruction (evacuation.py lines 92-98): follow `came_from` while
defined.  The fuel bound only guards against non-terminating chains; it is
larger than any acyclic chain. -/
def reconstructChain (cF : ℕ → Option ℕ) : ℕ → ℕ → List ℕ
  | 0, _ => []
  | fuel + 1, node =>
    match cF node with
    | some prev => node :: reconstructChain cF fuel prev
    | none => []

/-- The A* while-loop (evacuation.py lines 82-127), fuel-indexed: pop the
least entry; skip it if already finalized; finalize it; return the
reconstructed route if it is safe; otherwise relax its out-edges and
continue.  Fuel running out returns `none`; the completeness theorem shows
the initial fuel of find_escape_route is never exhausted, so this models
the unbounded Python loop. -/
def astarLoop (G : RoadGraph) (hfn : ℕ → ℚ) (start : ℕ) :
    ℕ → List (ℚ × ℚ × ℕ) → (ℕ → Option ℚ) → (ℕ → Option ℕ) → List ℕ →
    Option (List (ℚ × ℚ) × (ℚ × ℚ × ℚ))
  | 0, _, _, _, _ => none
  | fuel + 1, queue, gS, cF, visited =>
    match popMin queue with
    | none => none
    | some (e, rest) =>
      if e.2.2 ∈ visited then astarLoop G hfn start fuel rest gS cF visited
      else if G.isSafe e.2.2 then
        some (((reconstructChain cF (G.nodes.length + 1) e.2.2 ++
                 [start]).reverse).map (fun n => (G.y n, G.x n)),
              (G.y e.2.2, G.x e.2.2, G.fsi e.2.2))
      else
        astarLoop G hfn start fuel
          (expandNode G hfn (e.2.2 :: visited) e.2.1 e.2.2 rest gS cF).1
          (expandNode G hfn (e.2.2 :: visited) e.2.1 e.2.2 rest gS cF).2.1
          (expandNode G hfn (e.2.2 :: visited) e.2.1 e.2.2 rest gS cF).2.2
          (e.2.2 :: visited)

/-- find_escape_route (evacuation.py lines 27-127).  The start node is the
result of the external `ox.nearest_nodes` snap; the heuristic `hfn` models
the min-haversine-to-a-safe-node heuristic (transcendental float math,
opaque to the search's success or failure).  Returns `none` for the Python
`(None, None)`; otherwise `(route waypoints, (lat, lon, fsi))`. -/
def findEscapeRoute (G : RoadGraph) (hfn : ℕ → ℚ) (start : ℕ) :
    Option (List (ℚ × ℚ) × (ℚ × ℚ × ℚ)) :=
  if G.isSafe start then
    some ([(G.y start, G.x start)], (G.y start, G.x start, G.fsi start))
  else if G.nodes.filter (fun n => G.isSafe n) = [] then none
  else
    astarLoop G hfn start (G.nodes.length + G.edges.length + 2)
      [(hfn start, 0, start)]
      (fun n => if n = start then some 0 else none)
      (fun _ => none)
      []

/-- Out-degree of a node: the number of its out-edges. -/
def outDeg (G : RoadGraph) (u : ℕ) : ℕ :=
  (G.edges.filter (fun ed => ed.1 = u)).length

/-- Potential of the search state: queue length plus, for every unvisited
node, its out-degree plus one.  Strictly decreases each loop iteration. -/
def searchPot (G : RoadGraph) (queue : List (ℚ × ℚ × ℕ)) (visited : List ℕ) : ℕ :=
  queue.length +
    ((G.nodes.toFinset \ visited.toFinset).sum (fun u => outDeg G u + 1))

/-- The A* loop invariant over the state `(queue, gS, visited)`:
every g-scored node is finalized or queued; out-neighbours of finalized
nodes are finalized or g-scored; no finalized node is safe; the start is
g-scored; every queued node is reachable from the start; queued and
g-scored nodes are graph nodes. -/
def AstarInv (G : RoadGraph) (start : ℕ) (queue : List (ℚ × ℚ × ℕ))
    (gS : ℕ → Option ℚ) (visited : List ℕ) : Prop :=
  (∀ n, (gS n).isSome → n ∈ visited ∨ ∃ e ∈ queue, e.2.2 = n) ∧
  (∀ u ∈ visited, ∀ ed ∈ G.edges, ed.1 = u →
    ed.2.1 ∈ visited ∨ (gS ed.2.1).isSome) ∧
  (∀ u ∈ visited, G.isSafe u = false) ∧
  (gS start).isSome ∧
  (∀ e ∈ queue, Relation.ReflTransGen (GraphStep G) start e.2.2) ∧
  (∀ e ∈ queue, e.2.2 ∈ G.nodes) ∧
  (∀ n, (gS n).isSome → n ∈ G.nodes)

/-- Joint properties of a relaxation fold (proof scaffolding): the final
queue extends the initial one only by entries for targets of the processed
edges; g-scores grow monotonically and new g-scored nodes are queued; every
processed edge's target ends up visited or g-scored; the queue grows by at
most one entry per processed edge. -/
def RelaxFoldProps (visited : List ℕ) (l : List (ℕ × ℕ × Option ℚ))
    (q0 : List (ℚ × ℚ × ℕ)) (gS0 : ℕ → Option ℚ)
    (st : List (ℚ × ℚ × ℕ) × (ℕ → Option ℚ) × (ℕ → Option ℕ)) : Prop :=
  (∀ e' ∈ st.1, e' ∈ q0 ∨ ∃ ed ∈ l, e'.2.2 = ed.2.1) ∧
  (∀ e' ∈ q0, e' ∈ st.1) ∧
  (∀ n, (gS0 n).isSome → (st.2.1 n).isSome) ∧
  (∀ n, (st.2.1 n).isSome → (gS0 n).isSome ∨ ∃ e' ∈ st.1, e'.2.2 = n) ∧
  (∀ ed ∈ l, ed.2.1 ∈ visited ∨ (st.2.1 ed.2.1).isSome) ∧
  st.1.length ≤ q0.length + l.length

/- ### Concrete inputs for witnesses -/

/-- A concrete two-edge road graph for the C2 witness. -/
def witnessGraph : List Edge :=
  [ { key := (0, 1, 0), length := some 100, flood_risk := some (1/2) },
    { key := (1, 2, 0), length := some 50, flood_risk := some (7/10) } ]

/-- A concrete FSI raster function for the C7 witness. -/
def witnessFsi : ℕ × ℕ → ℚ := fun c => if c = (0, 0) then 1/4 else 3/5

/-- A concrete water-mask function for the C7 witness. -/
def witnessMask : ℕ × ℕ → ℚ := fun c => if c = (0, 0) then 1 else 0

/-- A concrete two-node road graph (edge 0 → 1, node 1 safe) for the C9
witness. -/
def witnessRoadGraph : RoadGraph :=
  { nodes := [0, 1],
    y := fun n => n,
    x := fun _ => 0,
    fsi := fun n => if n = 1 then 1/10 else 1/2,
    isSafe := fun n => decide (n = 1),
    edges := [(0, 1, some 5)] }

/-- Water mask for the river-proximity witness grid: water at (0,0) only. -/
def witnessWater : ℕ × ℕ → Bool := fun c => decide (c = (0, 0))

/-- A concrete 1×1 raster with the identity inverse transform for the C10
witness. -/
def witnessRaster : RasterBand :=
  { rows := 1, cols := 1,
    invTransform := { a := 1, b := 0, c := 0, d := 0, e := 1, f := 0 },
    band := fun _ => 9/10 }

/-! ## Theorems -/

/-- Anatomy of one penalization step: a produced edge keeps the key and risk
of its source edge, has risk below the removal threshold, and its length is
re-scaled exactly when the risk is positive. -/
theorem penalizeStep_characterization (p t : ℚ) (a e' : Edge)
    (h : penalizeStep p t a = some e') :
    e'.key = a.key ∧ e'.riskOf = a.riskOf ∧ a.riskOf < t ∧
      (0 < a.riskOf → e'.lengthOf = a.lengthOf * (1 + a.riskOf * p)) ∧
      (¬ 0 < a.riskOf → e' = a) := by
  unfold penalizeStep at h
  split_ifs at h with h1 h2
  · rw [Option.some_inj] at h
    subst h
    exact ⟨rfl, rfl, not_le.mp h1, fun _ => rfl, fun hc => absurd h2 hc⟩
  · rw [Option.some_inj] at h
    subst h
    exact ⟨rfl, rfl, not_le.mp h1, fun hc => absurd hc h2, fun _ => rfl⟩

/-- C2: after `penalize_flooded_edges` with the default parameters
(remove_threshold 0.66, penalty_factor 10), no edge whose `flood_risk` was
`>= 0.66` remains in the graph (surviving edges keep their `flood_risk`, so
every surviving edge has risk `< 0.66`), and every surviving edge with
`flood_risk = r > 0` has length exactly `original_length * (1 + 10 * r)`. -/
theorem penalize_flooded_edges_spec (G : List Edge)
    (hkeys : (G.map Edge.key).Nodup) :
    (∀ e' ∈ penalizeFloodedEdges G FLOOD_RISK_PENALTY_FACTOR
        HIGH_RISK_ROAD_THRESHOLD, e'.riskOf < 66/100) ∧
    (∀ e ∈ G, ∀ e' ∈ penalizeFloodedEdges G FLOOD_RISK_PENALTY_FACTOR
        HIGH_RISK_ROAD_THRESHOLD, e'.key = e.key → 0 < e.riskOf →
      e'.riskOf = e.riskOf ∧ e'.lengthOf = e.lengthOf * (1 + 10 * e.riskOf)) := by
  constructor
  · intro e' he'
    rcases List.mem_filterMap.mp he' with ⟨a, _, ha⟩
    rcases penalizeStep_characterization _ _ _ _ ha with ⟨_, hr, hlt, _, _⟩
    rw [hr]
    exact hlt
  · intro e he e' he' hk hr
    rcases List.mem_filterMap.mp he' with ⟨a, haG, ha⟩
    rcases penalizeStep_characterization _ _ _ _ ha with ⟨hak, hrisk, _, hlen, _⟩
    have hae : a = e :=
      List.inj_on_of_nodup_map hkeys haG he (by rw [← hak, hk])
    subst hae
    exact ⟨hrisk, by simpa [FLOOD_RISK_PENALTY_FACTOR, mul_comm] using hlen hr⟩

/-- C2 witness: on the concrete two-edge graph, the theorem applies; its
keys are distinct. -/
theorem penalize_flooded_edges_spec_witness :
    (witnessGraph.map Edge.key).Nodup ∧
    (∀ e' ∈ penalizeFloodedEdges witnessGraph FLOOD_RISK_PENALTY_FACTOR
        HIGH_RISK_ROAD_THRESHOLD, e'.riskOf < 66/100) :=
  ⟨by decide, (penalize_flooded_edges_spec witnessGraph (by decide)).1⟩

/-- C7: apply_water_mask forces FSI = 1.0 at every cell marked in the water
mask exactly when `rain_mm >= 0.3 * RAIN_MAX = 45`; for rainfall below that
threshold the computed FSI raster is returned untouched at every cell. -/
theorem apply_water_mask_spec (fsi mask : ℕ × ℕ → ℚ) (rain : ℚ) :
    (45 ≤ rain → ∀ c, 0 < mask c → applyWaterMask fsi mask rain c = 1) ∧
    (rain < 45 → applyWaterMask fsi mask rain = fsi) := by
  have h45 : RAIN_MAX * (3/10) = (45 : ℚ) := by norm_num [RAIN_MAX]
  constructor
  · intro h c hc
    unfold applyWaterMask
    rw [h45, if_pos h]
    show (if 0 < mask c then (1 : ℚ) else fsi c) = 1
    rw [if_pos hc]
  · intro h
    unfold applyWaterMask
    rw [h45, if_neg (not_le.mpr h)]

/-- C7 witness: with 50mm of rain (above the 45mm threshold) the water cell
(0,0) of the concrete raster is forced to 1. -/
theorem apply_water_mask_spec_witness :
    (45 : ℚ) ≤ 50 ∧ applyWaterMask witnessFsi witnessMask 50 (0, 0) = 1 :=
  ⟨by norm_num,
   (apply_water_mask_spec witnessFsi witnessMask 50).1 (by norm_num) (0, 0)
     (by decide)⟩

/-- C3: for every nonnegative rainfall amount, the rainfall multiplier of
apply_rainfall_multiplier equals `clamp(rain_mm / rain_max, 0, 1) ^ alpha`
(defaults rain_max = 150, alpha = 1.2), is monotonically non-decreasing in
rain_mm, and equals 1.0 for every rain_mm ≥ rain_max. -/
theorem apply_rainfall_multiplier_spec (r s : ℝ) (hr : 0 ≤ r) (hrs : r ≤ s) :
    rainFactor r = rainFactorClaim r ∧
    rainFactor r ≤ rainFactor s ∧
    (150 ≤ r → rainFactor r = 1) := by
  have hmin : (0 : ℝ) ≤ min (r / 150) 1 :=
    le_min (div_nonneg hr (by norm_num)) zero_le_one
  refine ⟨?_, ?_, ?_⟩
  · unfold rainFactor rainFactorClaim
    rw [max_eq_right hmin]
  · unfold rainFactor
    refine Real.rpow_le_rpow hmin ?_ (by norm_num)
    exact min_le_min (div_le_div_of_nonneg_right hrs (by norm_num)) le_rfl
  · intro h150
    unfold rainFactor
    have : min (r / 150) 1 = 1 :=
      min_eq_right ((le_div_iff₀ (by norm_num)).mpr (by linarith))
    rw [this, Real.one_rpow]

/-- C3 witness: at rain 150 and 300 the hypotheses hold and the multiplier
caps at 1. -/
theorem apply_rainfall_multiplier_spec_witness :
    (0 : ℝ) ≤ 150 ∧ (150 : ℝ) ≤ 300 ∧ rainFactor 150 = 1 :=
  ⟨by norm_num, by norm_num,
   (apply_rainfall_multiplier_spec 150 300 (by norm_num) (by norm_num)).2.2
     (by norm_num)⟩

/-- C10: a node whose coordinate maps outside the bounds of the FSI raster is
assigned fsi = 0.0 and hence is_safe = true under the default safe_threshold
0.3: an off-raster node is always classified as a safe escape destination. -/
theorem label_safe_node_out_of_bounds (R : RasterBand) (x y : ℚ)
    (h : ¬ (0 ≤ pyRoundInt (R.invTransform.apply x y).2 ∧
            pyRoundInt (R.invTransform.apply x y).2 < (R.rows : ℤ) ∧
            0 ≤ pyRoundInt (R.invTransform.apply x y).1 ∧
            pyRoundInt (R.invTransform.apply x y).1 < (R.cols : ℤ))) :
    labelSafeNode R (3/10) x y = (0, true) := by
  simp only [labelSafeNode]
  rw [if_neg h]
  norm_num

/-- C10 witness: on the concrete 1×1 raster with identity transform, the node
at x = 5 maps to column 5, out of bounds, and is labelled safe with fsi 0. -/
theorem label_safe_node_out_of_bounds_witness :
    labelSafeNode witnessRaster (3/10) 5 0 = (0, true) :=
  label_safe_node_out_of_bounds witnessRaster 5 0
    (by norm_num [witnessRaster, InvAffine.apply, pyRoundInt])

/-- C4: the validated-weights entry point (ahp.py get_validated_weights,
generalised over the matrix it validates) fails with a distinct error kind
exactly when the consistency ratio CR is `>= 0.1`, and whenever it returns
weights the matrix they were derived from has CR `< 0.1`. -/
theorem validated_weights_error_iff (m : List (List ℚ)) (names : List String) :
    ((∃ msg, validatedWeights m names = Except.error msg) ↔
      1/10 ≤ consistencyRatio m) ∧
    (∀ w, validatedWeights m names = Except.ok w → consistencyRatio m < 1/10) := by
  by_cases h : consistencyRatio m < 1/10
  · have hb : validatedWeights m names =
        Except.ok (renormalizeWeights (computeAhpWeights m names).1) := by
      unfold validatedWeights
      rw [if_pos]
      show (computeAhpWeights m names).2.2.2 = true
      unfold computeAhpWeights isConsistent
      exact decide_eq_true h
    refine ⟨⟨fun hex => ?_, fun hle => absurd h (not_lt.mpr hle)⟩, fun w _ => h⟩
    rcases hex with ⟨msg, hmsg⟩
    rw [hb] at hmsg
    exact Except.noConfusion hmsg
  · have hb : validatedWeights m names =
        Except.error
          "AHP pairwise matrix is inconsistent. Adjust the comparison matrix." := by
      unfold validatedWeights
      rw [if_neg]
      show ¬ (computeAhpWeights m names).2.2.2 = true
      unfold computeAhpWeights isConsistent
      exact fun hc => h (of_decide_eq_true hc)
    refine ⟨⟨fun _ => not_lt.mp h, fun _ => ⟨_, hb⟩⟩, fun w hw => ?_⟩
    rw [hb] at hw
    exact Except.noConfusion hw

/-- Exact priority vector of the built-in matrix. -/
theorem ahp_priority_eval :
    priority PAIRWISE_MATRIX =
      [893/3850, 349/3850, 349/3850, 1506/3850, 753/3850] := by
  norm_num [priority, priorityRow, colSum, PAIRWISE_MATRIX, List.range_succ]

/-- Rounded weights of the built-in matrix. -/
theorem ahp_weights_eval :
    (computeAhpWeights PAIRWISE_MATRIX FACTOR_NAMES).1 =
      [("elevation", 2319/10000), ("slope", 906/10000), ("soil", 906/10000),
       ("river", 3912/10000), ("flow_accum", 1956/10000)] := by
  show FACTOR_NAMES.zip ((priority PAIRWISE_MATRIX).map pyRound4) = _
  rw [ahp_priority_eval]
  norm_num [FACTOR_NAMES, pyRound4, pyRoundInt]

/-- The consistency ratio of the built-in matrix is within 0.0002 of 0.006. -/
theorem ahp_cr_bound :
    |consistencyRatio PAIRWISE_MATRIX - 6/1000| < 1/5000 := by
  norm_num [consistencyRatio, consistencyIndex, lambdaMax, lambdaRatios,
    weighted, priority, priorityRow, colSum, PAIRWISE_MATRIX, RI_TABLE,
    List.range_succ, abs_lt]

/-- The built-in matrix passes the consistency check. -/
theorem ahp_consistent_eval : isConsistent PAIRWISE_MATRIX = true := by
  rw [isConsistent, decide_eq_true_eq]
  norm_num [consistencyRatio, consistencyIndex, lambdaMax, lambdaRatios,
    weighted, priority, priorityRow, colSum, PAIRWISE_MATRIX, RI_TABLE,
    List.range_succ]

/-- Full evaluation of the Python entry point get_validated_weights. -/
theorem ahp_validated_eval :
    getValidatedWeights =
      Except.ok
        [("elevation", 2319/10000), ("slope", 906/10000), ("soil", 906/10000),
         ("river", 3912/10000), ("flow_accum", 1956/10000)] := by
  unfold getValidatedWeights validatedWeights
  rw [if_pos]
  · rw [show (computeAhpWeights PAIRWISE_MATRIX FACTOR_NAMES).1 = _ from
        ahp_weights_eval]
    norm_num [renormalizeWeights, pyRound4, pyRoundInt, -Int.self_sub_floor,
      -Int.self_sub_fract, -Int.fract_sub_self]
  · show (computeAhpWeights PAIRWISE_MATRIX FACTOR_NAMES).2.2.2 = true
    exact ahp_consistent_eval

/-- C4 witness: the error-iff characterization applied at the built-in
matrix. -/
theorem validated_weights_error_iff_witness :
    (∃ msg, validatedWeights PAIRWISE_MATRIX FACTOR_NAMES = Except.error msg) ↔
      1/10 ≤ consistencyRatio PAIRWISE_MATRIX :=
  (validated_weights_error_iff PAIRWISE_MATRIX FACTOR_NAMES).1

/-- C5: on the built-in 5-factor Saaty matrix, compute_ahp_weights returns
weights exactly {elevation 0.2319, slope 0.0906, soil 0.0906, river 0.3912,
flow_accum 0.1956} (4-decimal rounding), a consistency ratio within 0.0002 of
0.006, and is_consistent = true, and the validated entry point does not
fail. -/
theorem compute_ahp_weights_default :
    (computeAhpWeights PAIRWISE_MATRIX FACTOR_NAMES).1 =
      [("elevation", 2319/10000), ("slope", 906/10000), ("soil", 906/10000),
       ("river", 3912/10000), ("flow_accum", 1956/10000)] ∧
    |consistencyRatio PAIRWISE_MATRIX - 6/1000| < 1/5000 ∧
    isConsistent PAIRWISE_MATRIX = true ∧
    (∃ w, getValidatedWeights = Except.ok w) :=
  ⟨ahp_weights_eval, ahp_cr_bound, ahp_consistent_eval, ⟨_, ahp_validated_eval⟩⟩

/-- C6 fails on the code: on the only input the entry point ever uses (the
built-in matrix), get_validated_weights returns weights summing to 0.9999,
which differs from 1.0 by 10⁻⁴ > 10⁻⁶ — the final rounding re-introduces the
deficit the renormalisation was meant to remove. -/
theorem get_validated_weights_sum_gap :
    getValidatedWeights =
      Except.ok
        [("elevation", 2319/10000), ("slope", 906/10000), ("soil", 906/10000),
         ("river", 3912/10000), ("flow_accum", 1956/10000)] ∧
    weightsSum getValidatedWeights = 9999/10000 ∧
    ¬ |weightsSum getValidatedWeights - 1| ≤ 1/1000000 := by
  have hsum : weightsSum getValidatedWeights = 9999/10000 := by
    rw [ahp_validated_eval]
    simp only [weightsSum]
    norm_num
  refine ⟨ahp_validated_eval, hsum, ?_⟩
  rw [hsum, show (9999/10000 : ℚ) - 1 = -(1/10000) by norm_num, abs_neg,
    abs_of_pos (show (0:ℚ) < 1/10000 by norm_num)]
  norm_num

/-- The enumerated D8 offsets as a literal list. -/
theorem d8Neighbors_enum :
    d8Neighbors.enum =
      [(0, ((-1 : ℤ), (-1 : ℤ))), (1, (-1, 0)), (2, (-1, 1)), (3, (0, -1)),
       (4, (0, 1)), (5, (1, -1)), (6, (1, 0)), (7, (1, 1))] := rfl

/-- Each steepest-descent step preserves the fold invariant, provided the
enumerated index really addresses its offset. -/
theorem flowDirStep_inv (d : Dem) (r c : ℕ) (acc : ℚ × ℤ) (p : ℕ × ℤ × ℤ)
    (hp : d8Neighbors.getD p.1 (0, 0) = p.2) (h : FDInv d r c acc) :
    FDInv d r c (flowDirStep d r c acc p) := by
  unfold flowDirStep
  split_ifs with hb hlt
  · refine ⟨le_of_lt (lt_of_le_of_lt h.1 hlt), fun _ => ?_⟩
    have htn : ((p.1 : ℤ)).toNat = p.1 := Int.toNat_natCast p.1
    refine ⟨lt_of_le_of_lt h.1 hlt, ?_⟩
    rw [htn, hp]
    exact ⟨hb.1, hb.2.1, hb.2.2.1, hb.2.2.2, sub_pos.mp (lt_of_le_of_lt h.1 hlt)⟩
  · exact h
  · exact h

/-- The completed steepest-descent fold satisfies the invariant. -/
theorem flowDirFold_inv (d : Dem) (r c : ℕ) : FDInv d r c (flowDirFold d r c) := by
  have h0 : FDInv d r c (0, -1) :=
    ⟨le_refl 0, fun hcon => absurd hcon (by norm_num)⟩
  rw [flowDirFold, d8Neighbors_enum]
  simp only [List.foldl_cons, List.foldl_nil]
  exact flowDirStep_inv _ _ _ _ _ rfl (flowDirStep_inv _ _ _ _ _ rfl
    (flowDirStep_inv _ _ _ _ _ rfl (flowDirStep_inv _ _ _ _ _ rfl
    (flowDirStep_inv _ _ _ _ _ rfl (flowDirStep_inv _ _ _ _ _ rfl
    (flowDirStep_inv _ _ _ _ _ rfl (flowDirStep_inv _ _ _ _ _ rfl h0)))))))

/-- A downstream neighbour is in bounds and strictly lower. -/
theorem downstream_spec (d : Dem) (cell q : ℕ × ℕ)
    (h : downstream d cell = some q) :
    (q.1 < d.rows ∧ q.2 < d.cols) ∧ d.elev q < d.elev cell := by
  have hinv := flowDirFold_inv d cell.1 cell.2
  unfold downstream at h
  by_cases hfd : 0 ≤ (flowDirFold d cell.1 cell.2).2
  · rcases hinv.2 hfd with ⟨_, h1, h2, h3, h4, hlt⟩
    rw [if_pos hfd, Option.some_inj] at h
    subst h
    exact ⟨⟨by omega, by omega⟩, hlt⟩
  · rw [if_neg hfd] at h
    exact Option.noConfusion h

/-- Membership in the grid-cell list is exactly being in bounds. -/
theorem mem_gridCells (rows cols : ℕ) (a b : ℕ) :
    (a, b) ∈ gridCells rows cols ↔ a < rows ∧ b < cols := by
  unfold gridCells
  rw [List.mem_map]
  constructor
  · rintro ⟨i, hi, heq⟩
    rw [List.mem_range] at hi
    injection heq with h1 h2
    have hc : 0 < cols := by
      rcases Nat.eq_zero_or_pos cols with h | h
      · rw [h, Nat.mul_zero] at hi
        exact absurd hi (Nat.not_lt_zero i)
      · exact h
    subst h1
    subst h2
    exact ⟨(Nat.div_lt_iff_lt_mul hc).mpr hi, Nat.mod_lt _ hc⟩
  · rintro ⟨ha, hb⟩
    have hc : 0 < cols := by omega
    refine ⟨cols * a + b, ?_, ?_⟩
    · rw [List.mem_range]
      calc cols * a + b < cols * a + cols := by omega
        _ = (a + 1) * cols := by ring
        _ ≤ rows * cols := Nat.mul_le_mul_right _ (by omega)
    · rw [Nat.mul_add_div hc, Nat.mul_add_mod, Nat.div_eq_of_lt hb,
        Nat.mod_eq_of_lt hb, Nat.add_zero]

/-- Membership in a DEM's cell list is exactly being in bounds. -/
theorem mem_demCells (d : Dem) (a b : ℕ) :
    (a, b) ∈ demCells d ↔ a < d.rows ∧ b < d.cols := mem_gridCells d.rows d.cols a b

/-- The grid-cell list has no duplicates. -/
theorem gridCells_nodup (rows cols : ℕ) : (gridCells rows cols).Nodup := by
  unfold gridCells
  refine List.Nodup.map_on ?_ (List.nodup_range _)
  intro i hi j hj heq
  injection heq with h1 h2
  calc i = cols * (i / cols) + i % cols := (Nat.div_add_mod i cols).symm
    _ = cols * (j / cols) + j % cols := by rw [h1, h2]
    _ = j := Nat.div_add_mod j cols

/-- The DEM cell list has no duplicates. -/
theorem demCells_nodup (d : Dem) : (demCells d).Nodup := gridCells_nodup d.rows d.cols

/-- The cell list enumerates all rows × cols cells. -/
theorem demCells_length (d : Dem) : (demCells d).length = d.rows * d.cols := by
  unfold demCells gridCells
  rw [List.length_map, List.length_range]

/-- Summing an additively-updated map over a duplicate-free list containing
the updated point adds exactly the update once. -/
theorem sum_map_update {α : Type} [DecidableEq α] (t : List α) (hnd : t.Nodup)
    (a : α) (ha : a ∈ t) (f : α → ℚ) (k : ℚ) :
    (t.map (fun x => if x = a then f x + k else f x)).sum = (t.map f).sum + k := by
  induction t with
  | nil => cases ha
  | cons b t ih =>
    rw [List.nodup_cons] at hnd
    rcases List.mem_cons.mp ha with h | h
    · subst h
      rw [List.map_cons, List.map_cons, List.sum_cons, List.sum_cons, if_pos rfl]
      have hmap : t.map (fun x => if x = a then f x + k else f x) = t.map f := by
        apply List.map_congr_left
        intro x hx
        apply if_neg
        intro hxa
        rw [hxa] at hx
        exact hnd.1 hx
      rw [hmap]
      ring
    · have hba : ¬ b = a := by
        intro hba
        rw [hba] at hnd
        exact hnd.1 h
      rw [List.map_cons, List.map_cons, List.sum_cons, List.sum_cons,
        if_neg hba, ih hnd.2 h]
      ring

/-- The conservation invariant holds before any cell is processed. -/
theorem consInv_base (d : Dem) : consInv d [] (demOrder d) := by
  unfold consInv accumAfter demOrder
  simp only [List.foldl_nil, List.filter_nil, List.map_nil, List.sum_nil,
    add_zero]
  rw [List.map_const', List.sum_replicate, nsmul_eq_mul, mul_one,
    (List.perm_insertionSort (demGE d) (demCells d)).length_eq,
    demCells_length]
  push_cast
  ring

/-- Processing one more cell preserves the conservation invariant. -/
theorem consInv_step (d : Dem) (p s' : List (ℕ × ℕ)) (cell : ℕ × ℕ)
    (hd : demOrder d = p ++ cell :: s') (h : consInv d p (cell :: s')) :
    consInv d (p ++ [cell]) s' := by
  have hsorted : (demOrder d).Sorted (demGE d) :=
    List.sorted_insertionSort (demGE d) (demCells d)
  have hnodup : (demOrder d).Nodup :=
    (List.perm_insertionSort (demGE d) (demCells d)).nodup_iff.mpr
      (demCells_nodup d)
  have hA' : accumAfter d (p ++ [cell]) = accumStep d (accumAfter d p) cell := by
    unfold accumAfter
    rw [List.foldl_append, List.foldl_cons, List.foldl_nil]
  unfold consInv at h ⊢
  rw [hA']
  cases hq : downstream d cell with
  | none =>
    simp only [accumStep, hq]
    rw [List.filter_append]
    have hfc : List.filter (fun c => (downstream d c).isNone) [cell] = [cell] := by
      simp [hq]
    rw [hfc, List.map_append, List.sum_append]
    simp only [List.map_cons, List.map_nil, List.sum_cons, List.sum_nil,
      add_zero] at h ⊢
    linarith [h]
  | some q =>
    have hspec := downstream_spec d cell q hq
    have hqmem : q ∈ demOrder d := by
      unfold demOrder
      rw [(List.perm_insertionSort (demGE d) (demCells d)).mem_iff]
      exact (mem_demCells d q.1 q.2).mpr hspec.1
    have hqp : q ∉ p := by
      intro hqp
      have hpw := List.pairwise_append.mp (hd ▸ hsorted)
      have hge : demGE d q cell := hpw.2.2 q hqp cell (List.mem_cons_self _ _)
      exact absurd hspec.2 (not_lt.mpr hge)
    have hqcell : q ≠ cell := by
      intro hqe
      rw [hqe] at hspec
      exact lt_irrefl _ hspec.2
    have hqs' : q ∈ s' := by
      have hmem2 : q ∈ p ++ cell :: s' := hd ▸ hqmem
      rcases List.mem_append.mp hmem2 with h1 | h2
      · exact absurd h1 hqp
      · rcases List.mem_cons.mp h2 with h3 | h4
        · exact absurd h3 hqcell
        · exact h4
    have hs'nodup : s'.Nodup := by
      have hnd2 : (p ++ cell :: s').Nodup := hd ▸ hnodup
      exact (List.nodup_cons.mp (List.nodup_append.mp hnd2).2.1).2
    simp only [accumStep, hq]
    rw [List.filter_append]
    have hfc : List.filter (fun c => (downstream d c).isNone) [cell] = [] := by
      simp [hq]
    rw [hfc, List.append_nil]
    have hsum1 :
        (s'.map (fun x =>
          if x = q then accumAfter d p x + accumAfter d p cell
          else accumAfter d p x)).sum =
        (s'.map (accumAfter d p)).sum + accumAfter d p cell :=
      sum_map_update s' hs'nodup q hqs' (accumAfter d p) (accumAfter d p cell)
    have hsum2 :
        ((p.filter (fun c => (downstream d c).isNone)).map (fun x =>
          if x = q then accumAfter d p x + accumAfter d p cell
          else accumAfter d p x)) =
        (p.filter (fun c => (downstream d c).isNone)).map (accumAfter d p) := by
      apply List.map_congr_left
      intro x hx
      apply if_neg
      intro hxq
      have hxp : x ∈ p := List.mem_of_mem_filter hx
      rw [hxq] at hxp
      exact hqp hxp
    rw [hsum1, hsum2]
    simp only [List.map_cons, List.sum_cons] at h
    linarith [h]

/-- Chaining the invariant to the end of the order. -/
theorem consInv_chain (d : Dem) :
    ∀ (s p : List (ℕ × ℕ)), demOrder d = p ++ s → consInv d p s →
      consInv d (demOrder d) [] := by
  intro s
  induction s with
  | nil =>
    intro p hd hi
    rw [List.append_nil] at hd
    rw [hd]
    exact hi
  | cons cell s' ih =>
    intro p hd hi
    refine ih (p ++ [cell]) ?_ (consInv_step d p s' cell hd hi)
    rw [hd, List.append_assoc]
    rfl

/-- C1 amended: for every DEM (in particular one with no flat regions and no
elevation ties), the sum of the accumulation values over the SINK cells —
the cells with no outgoing flow direction — equals the number of cells in
the grid: every cell's unit of flow is counted exactly once, at the sink
where its drainage path ends. -/
theorem flow_accum_sink_conservation (d : Dem) :
    sinkAccum d = (d.rows * d.cols : ℚ) := by
  have hfinal := consInv_chain d (demOrder d) [] (by rw [List.nil_append])
    (consInv_base d)
  unfold consInv at hfinal
  rw [List.map_nil, List.sum_nil, zero_add] at hfinal
  unfold sinkAccum
  have hperm :
      List.Perm
        (((demCells d).filter (fun c => (downstream d c).isNone)).map
          (flowAccumFun d))
        (((demOrder d).filter (fun c => (downstream d c).isNone)).map
          (flowAccumFun d)) :=
    ((List.perm_insertionSort (demGE d) (demCells d)).symm.filter _).map _
  rw [hperm.sum_eq]
  exact hfinal

/-- Cell list of the 1×2 counterexample DEM. -/
theorem demCE_cells : demCells demCE = [(0, 0), (0, 1)] := by
  norm_num [demCells, gridCells, demCE, List.range_succ]

/-- Descending order of the 1×2 counterexample DEM. -/
theorem demCE_order : demOrder demCE = [(0, 0), (0, 1)] := by
  rw [demOrder, demCE_cells]
  norm_num [List.insertionSort, List.orderedInsert, demGE, demCE]

/-- Steepest-descent fold at the higher cell: east neighbour, drop 1. -/
theorem demCE_fold00 : flowDirFold demCE 0 0 = (1, 4) := by
  rw [flowDirFold, d8Neighbors_enum]
  simp only [List.foldl_cons, List.foldl_nil]
  norm_num [flowDirStep, demCE]

/-- Steepest-descent fold at the lower cell: no positive drop. -/
theorem demCE_fold01 : flowDirFold demCE 0 1 = (0, -1) := by
  rw [flowDirFold, d8Neighbors_enum]
  simp only [List.foldl_cons, List.foldl_nil]
  norm_num [flowDirStep, demCE]

/-- The higher cell drains east. -/
theorem demCE_down00 : downstream demCE (0, 0) = some (0, 1) := by
  rw [downstream, demCE_fold00]
  decide

/-- The lower cell is a sink. -/
theorem demCE_down01 : downstream demCE (0, 1) = none := by
  rw [downstream, demCE_fold01]
  decide

/-- Accumulation values on the counterexample DEM. -/
theorem demCE_accum :
    flowAccumFun demCE (0, 0) = 1 ∧ flowAccumFun demCE (0, 1) = 2 := by
  have hfun : flowAccumFun demCE =
      accumStep demCE (accumStep demCE (fun _ => 1) (0, 0)) (0, 1) := by
    rw [flowAccumFun, demCE_order]
    simp only [List.foldl_cons, List.foldl_nil]
  rw [hfun]
  simp only [accumStep, demCE_down00, demCE_down01]
  norm_num [Prod.mk.injEq]
  decide

/-- C1 counterexample: on the 1×2 DEM `[2, 1]` — which has no flat regions
and no elevation ties — the sum of compute_flow_accumulation over ALL cells
is 3, not the cell count 2: the unit from the high cell is counted both at
its own cell and again at the sink it drains to. -/
theorem flow_accum_total_counterexample :
    noTies demCE ∧ totalAccum demCE = 3 ∧
      ((demCE.rows * demCE.cols : ℕ) : ℚ) = 2 ∧
      totalAccum demCE ≠ ((demCE.rows * demCE.cols : ℕ) : ℚ) := by
  have htot : totalAccum demCE = 3 := by
    rw [totalAccum, demCE_cells]
    simp only [List.map_cons, List.map_nil, List.sum_cons, List.sum_nil]
    rw [demCE_accum.1, demCE_accum.2]
    norm_num
  have hn : ((demCE.rows * demCE.cols : ℕ) : ℚ) = 2 := by norm_num [demCE]
  refine ⟨?_, htot, hn, by rw [htot, hn]; norm_num⟩
  intro a ha b hb heq
  rw [demCE_cells] at ha hb
  rcases List.mem_cons.mp ha with ha0 | ha1
  · rcases List.mem_cons.mp hb with hb0 | hb1
    · rw [ha0, hb0]
    · have hb2 : b = (0, 1) := by simpa using hb1
      rw [ha0, hb2] at heq
      norm_num [demCE] at heq
  · have ha2 : a = (0, 1) := by simpa using ha1
    rcases List.mem_cons.mp hb with hb0 | hb1
    · rw [ha2, hb0] at heq
      norm_num [demCE] at heq
    · have hb2 : b = (0, 1) := by simpa using hb1
      rw [ha2, hb2]

/-- A min-fold is bounded by its initial value. -/
theorem foldl_min_le_init {α : Type} [LinearOrder α] :
    ∀ (l : List α) (a : α), l.foldl min a ≤ a
  | [], a => le_refl a
  | x :: t, a => le_trans (foldl_min_le_init t (min a x)) (min_le_left a x)

/-- A min-fold is bounded by every list element. -/
theorem foldl_min_le_mem {α : Type} [LinearOrder α] :
    ∀ (l : List α) (a x : α), x ∈ l → l.foldl min a ≤ x
  | [], _, _, hx => absurd hx (List.not_mem_nil _)
  | y :: t, a, x, hx => by
    rcases List.mem_cons.mp hx with h | h
    · subst h
      exact le_trans (foldl_min_le_init t (min a x)) (min_le_right a x)
    · exact foldl_min_le_mem t (min a y) x h

/-- A lower bound of the initial value and all elements bounds a min-fold. -/
theorem le_foldl_min {α : Type} [LinearOrder α] :
    ∀ (l : List α) (a b : α), b ≤ a → (∀ x ∈ l, b ≤ x) → b ≤ l.foldl min a
  | [], _, _, ha, _ => ha
  | y :: t, a, b, ha, h => by
    refine le_foldl_min t (min a y) b (le_min ha (h y (List.mem_cons_self y t)))
      (fun x hx => h x (List.mem_cons_of_mem y hx))

/-- A max-fold dominates its initial value. -/
theorem init_le_foldl_max {α : Type} [LinearOrder α] :
    ∀ (l : List α) (a : α), a ≤ l.foldl max a
  | [], a => le_refl a
  | x :: t, a => le_trans (le_max_left a x) (init_le_foldl_max t (max a x))

/-- A max-fold dominates every list element. -/
theorem mem_le_foldl_max {α : Type} [LinearOrder α] :
    ∀ (l : List α) (a x : α), x ∈ l → x ≤ l.foldl max a
  | [], _, _, hx => absurd hx (List.not_mem_nil _)
  | y :: t, a, x, hx => by
    rcases List.mem_cons.mp hx with h | h
    · subst h
      exact le_trans (le_max_right a x) (init_le_foldl_max t (max a x))
    · exact mem_le_foldl_max t (max a y) x h

/-- A max-fold equals its initial value or an element of the list. -/
theorem foldl_max_cases {α : Type} [LinearOrder α] :
    ∀ (l : List α) (a : α), l.foldl max a = a ∨ l.foldl max a ∈ l
  | [], a => Or.inl rfl
  | y :: t, a => by
    rcases foldl_max_cases t (max a y) with h | h
    · rcases max_choice a y with hm | hm
      · exact Or.inl (by rw [List.foldl_cons, h, hm])
      · exact Or.inr (by rw [List.foldl_cons, h, hm]; exact List.mem_cons_self y t)
    · exact Or.inr (List.mem_cons_of_mem y h)

/-- Squared cell distances are nonnegative. -/
theorem cellDistSq_nonneg (a b : ℕ × ℕ) : 0 ≤ cellDistSq a b :=
  add_nonneg (sq_nonneg _) (sq_nonneg _)

/-- The squared distance from a cell to itself is zero. -/
theorem cellDistSq_self (a : ℕ × ℕ) : cellDistSq a a = 0 := by
  simp [cellDistSq]

/-- Distinct cells are at squared distance at least one. -/
theorem one_le_cellDistSq (a b : ℕ × ℕ) (h : a ≠ b) : 1 ≤ cellDistSq a b := by
  unfold cellDistSq
  have hne : (a.1 : ℤ) ≠ b.1 ∨ (a.2 : ℤ) ≠ b.2 := by
    by_contra hc
    push_neg at hc
    exact h (Prod.ext (by exact_mod_cast hc.1) (by exact_mod_cast hc.2))
  rcases hne with h1 | h1
  · have habs := Int.one_le_abs (sub_ne_zero.mpr h1)
    nlinarith [sq_nonneg ((a.2 : ℤ) - b.2), sq_abs ((a.1 : ℤ) - b.1)]
  · have habs := Int.one_le_abs (sub_ne_zero.mpr h1)
    nlinarith [sq_nonneg ((a.1 : ℤ) - b.1), sq_abs ((a.2 : ℤ) - b.2)]

/-- Folding min over mapped squared distances, in map form. -/
theorem foldl_min_cellDistSq (c : ℕ × ℕ) (ws : List (ℕ × ℕ)) (init : ℤ) :
    ws.foldl (fun m x => min m (cellDistSq c x)) init =
    (ws.map (cellDistSq c)).foldl min init := by
  induction ws generalizing init with
  | nil => rfl
  | cons y t ih => simp only [List.foldl_cons, List.map_cons, ih]

/-- The squared distance-to-water is nonnegative. -/
theorem distSqToWater_nonneg (rows cols : ℕ) (water : ℕ × ℕ → Bool)
    (c : ℕ × ℕ) : 0 ≤ distSqToWater rows cols water c := by
  unfold distSqToWater
  cases hw : waterCells rows cols water with
  | nil => exact le_refl 0
  | cons w ws =>
    show 0 ≤ ws.foldl (fun m x => min m (cellDistSq c x)) (cellDistSq c w)
    rw [foldl_min_cellDistSq]
    refine le_foldl_min _ _ _ (cellDistSq_nonneg c w) ?_
    intro x hx
    rcases List.mem_map.mp hx with ⟨y, _, hy⟩
    rw [← hy]
    exact cellDistSq_nonneg c y

/-- A water cell is at squared distance zero from the water. -/
theorem distSqToWater_eq_zero (rows cols : ℕ) (water : ℕ × ℕ → Bool)
    (c : ℕ × ℕ) (hc : c ∈ gridCells rows cols) (hcw : water c = true) :
    distSqToWater rows cols water c = 0 := by
  have hmem : c ∈ waterCells rows cols water :=
    List.mem_filter.mpr ⟨hc, hcw⟩
  refine le_antisymm ?_ (distSqToWater_nonneg rows cols water c)
  unfold distSqToWater
  cases hw : waterCells rows cols water with
  | nil => exact le_refl 0
  | cons w ws =>
    rw [hw] at hmem
    show ws.foldl (fun m x => min m (cellDistSq c x)) (cellDistSq c w) ≤ 0
    rw [foldl_min_cellDistSq]
    rcases List.mem_cons.mp hmem with h | h
    · calc (ws.map (cellDistSq c)).foldl min (cellDistSq c w) ≤ cellDistSq c w :=
        foldl_min_le_init _ _
        _ = 0 := by rw [← h]; exact cellDistSq_self c
    · calc (ws.map (cellDistSq c)).foldl min (cellDistSq c w) ≤ cellDistSq c c :=
        foldl_min_le_mem _ _ _ (List.mem_map.mpr ⟨c, h, rfl⟩)
        _ = 0 := cellDistSq_self c

/-- A dry cell is at squared distance at least one from the water, provided
some water pixel exists. -/
theorem one_le_distSqToWater (rows cols : ℕ) (water : ℕ × ℕ → Bool)
    (x : ℕ × ℕ) (hx : water x = false)
    (hne : waterCells rows cols water ≠ []) :
    1 ≤ distSqToWater rows cols water x := by
  have hxw : ∀ w ∈ waterCells rows cols water, x ≠ w := by
    intro w hw hxe
    have : water w = true := (List.mem_filter.mp hw).2
    rw [← hxe, hx] at this
    exact Bool.noConfusion this
  unfold distSqToWater
  cases hw : waterCells rows cols water with
  | nil => exact absurd hw hne
  | cons w ws =>
    show 1 ≤ ws.foldl (fun m y => min m (cellDistSq x y)) (cellDistSq x w)
    rw [foldl_min_cellDistSq]
    refine le_foldl_min _ _ _ ?_ ?_
    · exact one_le_cellDistSq x w (hxw w (by rw [hw]; exact List.mem_cons_self w ws))
    · intro v hv
      rcases List.mem_map.mp hv with ⟨y, hy, hyv⟩
      rw [← hyv]
      exact one_le_cellDistSq x y
        (hxw y (by rw [hw]; exact List.mem_cons_of_mem w hy))

/-- The distance-to-water raster is bounded by its maximum. -/
theorem distToWater_le_max (rows cols : ℕ) (water : ℕ × ℕ → Bool) (c : ℕ × ℕ)
    (hc : c ∈ gridCells rows cols) :
    distToWater rows cols water c ≤ maxDistToWater rows cols water :=
  mem_le_foldl_max _ 0 _ (List.mem_map.mpr ⟨c, hc, rfl⟩)

/-- C8 amended: provided the rasterized water mask has at least one water
pixel and at least one dry pixel, the river_factor raster of
compute_river_proximity has all values in [0,1], every water pixel has
factor exactly 1, and a cell farthest from the water has factor exactly 0;
and when the water-feature collection is empty, the river factor and the
water mask are identically zero (graceful degradation, no error). -/
theorem river_proximity_spec (rows cols : ℕ) (water : ℕ × ℕ → Bool)
    (hwet : ∃ w ∈ gridCells rows cols, water w = true)
    (hdry : ∃ x ∈ gridCells rows cols, water x = false) :
    (∀ c ∈ gridCells rows cols,
        0 ≤ (computeRiverProximity rows cols (some water)).1 c ∧
        (computeRiverProximity rows cols (some water)).1 c ≤ 1) ∧
    (∀ c ∈ gridCells rows cols, water c = true →
        (computeRiverProximity rows cols (some water)).1 c = 1) ∧
    (∃ c ∈ gridCells rows cols,
        (∀ c' ∈ gridCells rows cols,
          distToWater rows cols water c' ≤ distToWater rows cols water c) ∧
        (computeRiverProximity rows cols (some water)).1 c = 0) ∧
    (∀ c, (computeRiverProximity rows cols none).1 c = 0 ∧
        (computeRiverProximity rows cols none).2 c = 0) := by
  have hd0 : ∀ c, 0 ≤ distToWater rows cols water c :=
    fun c => Real.sqrt_nonneg _
  have hmax0 : (0 : ℝ) ≤ maxDistToWater rows cols water :=
    init_le_foldl_max _ 0
  obtain ⟨x, hxg, hxdry⟩ := hdry
  obtain ⟨w, hwg, hwwet⟩ := hwet
  have hne : waterCells rows cols water ≠ [] := by
    intro hnil
    have : w ∈ waterCells rows cols water := List.mem_filter.mpr ⟨hwg, hwwet⟩
    rw [hnil] at this
    exact List.not_mem_nil w this
  have hx1 : (1 : ℝ) ≤ distToWater rows cols water x := by
    have h1 : (1 : ℤ) ≤ distSqToWater rows cols water x :=
      one_le_distSqToWater rows cols water x hxdry hne
    have : Real.sqrt 1 ≤ distToWater rows cols water x :=
      Real.sqrt_le_sqrt (by exact_mod_cast h1)
    rwa [Real.sqrt_one] at this
  have hmaxpos : 0 < maxDistToWater rows cols water :=
    lt_of_lt_of_le (lt_of_lt_of_le one_pos hx1) (distToWater_le_max _ _ _ _ hxg)
  refine ⟨?_, ?_, ?_, fun c => ⟨rfl, rfl⟩⟩
  · intro c hc
    show 0 ≤ riverFactor rows cols water c ∧ riverFactor rows cols water c ≤ 1
    unfold riverFactor
    rw [if_pos hmaxpos]
    constructor
    · have hle : distToWater rows cols water c / maxDistToWater rows cols water ≤ 1 :=
        (div_le_one hmaxpos).mpr (distToWater_le_max _ _ _ _ hc)
      linarith
    · have hge : 0 ≤ distToWater rows cols water c / maxDistToWater rows cols water :=
        div_nonneg (hd0 c) hmax0
      linarith
  · intro c hc hcw
    show riverFactor rows cols water c = 1
    unfold riverFactor
    rw [if_pos hmaxpos]
    have hz : distToWater rows cols water c = 0 := by
      unfold distToWater
      rw [distSqToWater_eq_zero rows cols water c hc hcw]
      norm_num
    rw [hz, zero_div, sub_zero]
  · rcases foldl_max_cases ((gridCells rows cols).map
        (distToWater rows cols water)) 0 with hcase | hcase
    · exfalso
      have : distToWater rows cols water x ≤ maxDistToWater rows cols water :=
        distToWater_le_max _ _ _ _ hxg
      rw [show maxDistToWater rows cols water =
        ((gridCells rows cols).map (distToWater rows cols water)).foldl max 0
        from rfl, hcase] at this
      linarith
    · rcases List.mem_map.mp hcase with ⟨cstar, hcg, hceq⟩
      refine ⟨cstar, hcg, fun c' hc' => ?_, ?_⟩
      · rw [show distToWater rows cols water cstar =
          maxDistToWater rows cols water from hceq]
        exact distToWater_le_max _ _ _ _ hc'
      · show riverFactor rows cols water cstar = 0
        unfold riverFactor
        rw [if_pos hmaxpos,
          show distToWater rows cols water cstar =
            maxDistToWater rows cols water from hceq,
          div_self (ne_of_gt hmaxpos), sub_self]

/-- C8 witness: on the 1×2 grid with water exactly at (0,0), the hypotheses
hold and every water pixel has river factor 1. -/
theorem river_proximity_spec_witness :
    (∃ w ∈ gridCells 1 2, witnessWater w = true) ∧
    (∃ x ∈ gridCells 1 2, witnessWater x = false) ∧
    (∀ c ∈ gridCells 1 2, witnessWater c = true →
        (computeRiverProximity 1 2 (some witnessWater)).1 c = 1) :=
  ⟨by decide, by decide,
   (river_proximity_spec 1 2 witnessWater (by decide) (by decide)).2.1⟩

/-- C8 counterexample: when the water covers the whole (1×1) grid, the cell
farthest from the water (trivially the only cell) has river factor 1, not
0 — `d_max = 0` puts the code in its all-ones branch. -/
theorem river_proximity_farthest_counterexample :
    (∀ c' ∈ gridCells 1 1, distToWater 1 1 (fun _ => true) c' ≤
        distToWater 1 1 (fun _ => true) (0, 0)) ∧
    (computeRiverProximity 1 1 (some (fun _ => true))).1 (0, 0) = 1 ∧
    (computeRiverProximity 1 1 (some (fun _ => true))).1 (0, 0) ≠ 0 := by
  have hdist : distToWater 1 1 (fun _ => true) (0, 0) = 0 := by
    unfold distToWater
    rw [show distSqToWater 1 1 (fun _ => true) (0, 0) = 0 from rfl]
    norm_num
  have hmax : maxDistToWater 1 1 (fun _ => true) = 0 := by
    unfold maxDistToWater
    rw [show gridCells 1 1 = [(0, 0)] from rfl]
    rw [List.map_cons, List.map_nil, List.foldl_cons, List.foldl_nil, hdist]
    exact max_self 0
  have hrf : (computeRiverProximity 1 1 (some (fun _ => true))).1 (0, 0) = 1 := by
    show riverFactor 1 1 (fun _ => true) (0, 0) = 1
    unfold riverFactor
    rw [hmax, if_neg (lt_irrefl 0)]
  refine ⟨?_, hrf, by rw [hrf]; norm_num⟩
  intro c' hc'
  have hc'eq : c' = (0, 0) := by
    rw [show gridCells 1 1 = [(0, 0)] from rfl] at hc'
    simpa using hc'
  rw [hc'eq]

/-- An empty pop means an empty queue. -/
theorem popMin_eq_none : ∀ (l : List (ℚ × ℚ × ℕ)), popMin l = none → l = []
  | [], _ => rfl
  | e :: rest, h => by
    rw [popMin] at h
    cases hp : popMin rest with
    | none => rw [hp] at h; exact Option.noConfusion h
    | some p =>
      obtain ⟨m1, r1⟩ := p
      rw [hp] at h
      have h' : (if entryLEb e m1 = true then (some (e, rest) :
          Option ((ℚ × ℚ × ℕ) × List (ℚ × ℚ × ℕ))) else some (m1, e :: r1)) =
          none := h
      split_ifs at h'

/-- A pop removes one occurrence: the input is a permutation of the popped
entry consed on the remainder. -/
theorem popMin_perm :
    ∀ (l : List (ℚ × ℚ × ℕ)) (m : ℚ × ℚ × ℕ) (r : List (ℚ × ℚ × ℕ)),
      popMin l = some (m, r) → List.Perm l (m :: r)
  | [], _, _, h => Option.noConfusion h
  | e :: rest, m, r, h => by
    rw [popMin] at h
    cases hp : popMin rest with
    | none =>
      rw [hp] at h
      have hrest : rest = [] := popMin_eq_none rest hp
      rw [Option.some_inj] at h
      injection h with h1 h2
      subst h1
      subst h2
      rw [hrest]
    | some p =>
      obtain ⟨m1, r1⟩ := p
      rw [hp] at h
      have hrec : List.Perm rest (m1 :: r1) := popMin_perm rest m1 r1 hp
      have h' : (if entryLEb e m1 = true then (some (e, rest) :
          Option ((ℚ × ℚ × ℕ) × List (ℚ × ℚ × ℕ))) else some (m1, e :: r1)) =
          some (m, r) := h
      split_ifs at h' with hle
      · rw [Option.some_inj] at h'
        injection h' with h1 h2
        subst h1
        subst h2
        exact List.Perm.refl _
      · rw [Option.some_inj] at h'
        injection h' with h1 h2
        subst h1
        subst h2
        exact (hrec.cons e).trans (List.Perm.swap m1 e r1)

/-- Updating a dict-as-function makes the key defined and keeps others. -/
theorem updateFn_isSome {β : Type} (f : ℕ → Option β) (n : ℕ) (v : β) (m : ℕ) :
    ((updateFn f n v) m).isSome ↔ m = n ∨ (f m).isSome := by
  unfold updateFn
  split_ifs with h
  · simp [h]
  · simp [h]

/-- The relaxation fold satisfies all its bookkeeping properties. -/
theorem relax_fold_props (hfn : ℕ → ℚ) (visited : List ℕ) (g : ℚ)
    (current : ℕ) (l : List (ℕ × ℕ × Option ℚ)) :
    ∀ (q0 : List (ℚ × ℚ × ℕ)) (gS0 : ℕ → Option ℚ) (cF0 : ℕ → Option ℕ),
      RelaxFoldProps visited l q0 gS0
        (l.foldl (relaxStep hfn visited g current) (q0, gS0, cF0)) := by
  induction l with
  | nil =>
    intro q0 gS0 cF0
    rw [List.foldl_nil]
    exact ⟨fun e' he' => Or.inl he', fun e' he' => he', fun n hn => hn,
      fun n hn => Or.inl hn, fun ed hed => absurd hed (List.not_mem_nil ed),
      by simp⟩
  | cons ed t ih =>
    intro q0 gS0 cF0
    rw [List.foldl_cons]
    by_cases h1 : ed.2.1 ∈ visited
    · have hstep : relaxStep hfn visited g current (q0, gS0, cF0) ed =
          (q0, gS0, cF0) := by
        unfold relaxStep
        rw [if_pos h1]
      rw [hstep]
      obtain ⟨a1, a2, a3, a4, a5, a6⟩ := ih q0 gS0 cF0
      refine ⟨?_, a2, a3, a4, ?_, ?_⟩
      · intro e' he'
        rcases a1 e' he' with h | ⟨ed', hed', hn⟩
        · exact Or.inl h
        · exact Or.inr ⟨ed', List.mem_cons_of_mem ed hed', hn⟩
      · intro ed' hed'
        rcases List.mem_cons.mp hed' with h | h
        · exact Or.inl (by rw [h]; exact h1)
        · exact a5 ed' h
      · refine le_trans a6 ?_
        rw [List.length_cons]
        omega
    · by_cases h2 : (match gS0 ed.2.1 with
          | none => true
          | some gv => decide (g + ed.2.2.getD 1 < gv)) = true
      · have hstep : relaxStep hfn visited g current (q0, gS0, cF0) ed =
            (q0 ++ [(g + ed.2.2.getD 1 + hfn ed.2.1, g + ed.2.2.getD 1, ed.2.1)],
             updateFn gS0 ed.2.1 (g + ed.2.2.getD 1),
             updateFn cF0 ed.2.1 current) := by
          unfold relaxStep
          rw [if_neg h1, if_pos h2]
        rw [hstep]
        obtain ⟨a1, a2, a3, a4, a5, a6⟩ :=
          ih (q0 ++ [(g + ed.2.2.getD 1 + hfn ed.2.1, g + ed.2.2.getD 1, ed.2.1)])
            (updateFn gS0 ed.2.1 (g + ed.2.2.getD 1)) (updateFn cF0 ed.2.1 current)
        refine ⟨?_, ?_, ?_, ?_, ?_, ?_⟩
        · intro e' he'
          rcases a1 e' he' with h | ⟨ed', hed', hn⟩
          · rcases List.mem_append.mp h with h' | h'
            · exact Or.inl h'
            · refine Or.inr ⟨ed, List.mem_cons_self ed t, ?_⟩
              rw [List.mem_singleton.mp h']
          · exact Or.inr ⟨ed', List.mem_cons_of_mem ed hed', hn⟩
        · intro e' he'
          exact a2 e' (List.mem_append_left _ he')
        · intro n hn
          refine a3 n ?_
          rw [updateFn_isSome]
          exact Or.inr hn
        · intro n hn
          rcases a4 n hn with h | h
          · rcases (updateFn_isSome gS0 ed.2.1 _ n).mp h with h' | h'
            · refine Or.inr ⟨(g + ed.2.2.getD 1 + hfn ed.2.1, g + ed.2.2.getD 1, ed.2.1),
                a2 _ (List.mem_append_right _ (List.mem_singleton_self _)), ?_⟩
              rw [h']
            · exact Or.inl h'
          · exact Or.inr h
        · intro ed' hed'
          rcases List.mem_cons.mp hed' with h | h
          · refine Or.inr ?_
            rw [h]
            refine a3 ed.2.1 ?_
            rw [updateFn_isSome]
            exact Or.inl rfl
          · exact a5 ed' h
        · simp only [List.length_append, List.length_cons, List.length_nil]
            at a6 ⊢
          omega
      · have hsome : (gS0 ed.2.1).isSome := by
          cases hg : gS0 ed.2.1 with
          | none => rw [hg] at h2; exact absurd rfl h2
          | some gv => rfl
        have hstep : relaxStep hfn visited g current (q0, gS0, cF0) ed =
            (q0, gS0, cF0) := by
          unfold relaxStep
          rw [if_neg h1, if_neg h2]
        rw [hstep]
        obtain ⟨a1, a2, a3, a4, a5, a6⟩ := ih q0 gS0 cF0
        refine ⟨?_, a2, a3, a4, ?_, ?_⟩
        · intro e' he'
          rcases a1 e' he' with h | ⟨ed', hed', hn⟩
          · exact Or.inl h
          · exact Or.inr ⟨ed', List.mem_cons_of_mem ed hed', hn⟩
        · intro ed' hed'
          rcases List.mem_cons.mp hed' with h | h
          · refine Or.inr ?_
            rw [h]
            exact a3 ed.2.1 hsome
          · exact a5 ed' h
        · refine le_trans a6 ?_
          rw [List.length_cons]
          omega

/-- Summing per-source out-edge counts over any set of sources is bounded by
the edge count. -/
theorem sum_filter_length_le (S : Finset ℕ) (l : List (ℕ × ℕ × Option ℚ)) :
    S.sum (fun u => (l.filter (fun ed => ed.1 = u)).length) ≤ l.length := by
  induction l with
  | nil => simp
  | cons ed t ih =>
    have hsplit : ∀ u : ℕ, ((ed :: t).filter (fun e => e.1 = u)).length =
        (if ed.1 = u then 1 else 0) + (t.filter (fun e => e.1 = u)).length := by
      intro u
      by_cases h : ed.1 = u
      · simp [List.filter_cons, h]
        omega
      · simp [List.filter_cons, h]
    calc S.sum (fun u => ((ed :: t).filter (fun e => e.1 = u)).length)
        = S.sum (fun u => (if ed.1 = u then 1 else 0) +
            (t.filter (fun e => e.1 = u)).length) :=
          Finset.sum_congr rfl (fun u _ => hsplit u)
      _ = S.sum (fun u => if ed.1 = u then 1 else 0) +
            S.sum (fun u => (t.filter (fun e => e.1 = u)).length) :=
          Finset.sum_add_distrib
      _ ≤ 1 + t.length := by
          have h1 : S.sum (fun u => if ed.1 = u then 1 else 0) ≤ 1 := by
            rw [Finset.sum_ite_eq]
            split_ifs <;> omega
          omega
      _ = (ed :: t).length := by rw [List.length_cons]; omega

/-- Removing a freshly finalized node from the unvisited set splits off its
potential contribution. -/
theorem searchPot_fact (G : RoadGraph) (visited : List ℕ) (current : ℕ)
    (hmem : current ∈ G.nodes) (hnv : current ∉ visited) :
    (G.nodes.toFinset \ visited.toFinset).sum (fun u => outDeg G u + 1) =
    outDeg G current + 1 +
      (G.nodes.toFinset \ (current :: visited).toFinset).sum
        (fun u => outDeg G u + 1) := by
  have hS' : G.nodes.toFinset \ (current :: visited).toFinset =
      (G.nodes.toFinset \ visited.toFinset).erase current := by
    ext a
    simp only [List.toFinset_cons, Finset.mem_sdiff, Finset.mem_erase,
      Finset.mem_insert, List.mem_toFinset]
    tauto
  rw [hS']
  exact (Finset.add_sum_erase _ _
    (by rw [Finset.mem_sdiff, List.mem_toFinset, List.mem_toFinset]
        exact ⟨hmem, hnv⟩)).symm

/-- Nodes reachable from a graph node are graph nodes. -/
theorem reachable_mem_nodes (G : RoadGraph)
    (hwf : ∀ ed ∈ G.edges, ed.1 ∈ G.nodes ∧ ed.2.1 ∈ G.nodes) (start : ℕ)
    (hstart : start ∈ G.nodes) (s : ℕ)
    (h : Relation.ReflTransGen (GraphStep G) start s) : s ∈ G.nodes := by
  induction h with
  | refl => exact hstart
  | tail h1 h2 ih =>
    obtain ⟨ed, hed, _, htgt⟩ := h2
    rw [← htgt]
    exact (hwf ed hed).2

/-- Expanding a freshly finalized, unsafe node preserves the A* invariant. -/
theorem expand_preserves (G : RoadGraph) (start : ℕ) (hfn : ℕ → ℚ)
    (hwf : ∀ ed ∈ G.edges, ed.1 ∈ G.nodes ∧ ed.2.1 ∈ G.nodes)
    (e : ℚ × ℚ × ℕ) (rest queue : List (ℚ × ℚ × ℕ)) (gS : ℕ → Option ℚ)
    (cF : ℕ → Option ℕ) (visited : List ℕ)
    (hperm : List.Perm queue (e :: rest))
    (hinv : AstarInv G start queue gS visited)
    (hnv : e.2.2 ∉ visited) (hns : G.isSafe e.2.2 = false) :
    AstarInv G start
      (expandNode G hfn (e.2.2 :: visited) e.2.1 e.2.2 rest gS cF).1
      (expandNode G hfn (e.2.2 :: visited) e.2.1 e.2.2 rest gS cF).2.1
      (e.2.2 :: visited) := by
  obtain ⟨i1, i2, i3, i4, i5, i6, i7⟩ := hinv
  obtain ⟨a1, a2, a3, a4, a5, a6⟩ :=
    relax_fold_props hfn (e.2.2 :: visited) e.2.1 e.2.2
      (G.edges.filter (fun ed => ed.1 = e.2.2)) rest gS cF
  have hemem : e ∈ queue := hperm.mem_iff.mpr (List.mem_cons_self e rest)
  have hcur : Relation.ReflTransGen (GraphStep G) start e.2.2 := i5 e hemem
  have hfilt : ∀ ed, ed ∈ G.edges.filter (fun x => x.1 = e.2.2) →
      ed ∈ G.edges ∧ ed.1 = e.2.2 := by
    intro ed hed
    have h := List.mem_filter.mp hed
    exact ⟨h.1, of_decide_eq_true h.2⟩
  unfold expandNode
  refine ⟨?_, ?_, ?_, ?_, ?_, ?_, ?_⟩
  · intro n hn
    rcases a4 n hn with h | h
    · rcases i1 n h with h' | ⟨e', he', hne⟩
      · exact Or.inl (List.mem_cons_of_mem _ h')
      · rcases List.mem_cons.mp (hperm.mem_iff.mp he') with h'' | h''
        · refine Or.inl ?_
          rw [← hne, h'']
          exact List.mem_cons_self _ _
        · exact Or.inr ⟨e', a2 e' h'', hne⟩
    · exact Or.inr h
  · intro u hu ed hed hsrc
    rcases List.mem_cons.mp hu with h | h
    · have hedf : ed ∈ G.edges.filter (fun x => x.1 = e.2.2) :=
        List.mem_filter.mpr ⟨hed, decide_eq_true (by rw [hsrc, h])⟩
      rcases a5 ed hedf with h' | h'
      · exact Or.inl h'
      · exact Or.inr h'
    · rcases i2 u h ed hed hsrc with h' | h'
      · exact Or.inl (List.mem_cons_of_mem _ h')
      · exact Or.inr (a3 _ h')
  · intro u hu
    rcases List.mem_cons.mp hu with h | h
    · rw [h]; exact hns
    · exact i3 u h
  · exact a3 start i4
  · intro e' he'
    rcases a1 e' he' with h | ⟨ed, hed, hn⟩
    · exact i5 e' (hperm.mem_iff.mpr (List.mem_cons_of_mem e h))
    · obtain ⟨hedE, hedsrc⟩ := hfilt ed hed
      refine Relation.ReflTransGen.tail hcur ?_
      rw [hn]
      exact ⟨ed, hedE, hedsrc, rfl⟩
  · intro e' he'
    rcases a1 e' he' with h | ⟨ed, hed, hn⟩
    · exact i6 e' (hperm.mem_iff.mpr (List.mem_cons_of_mem e h))
    · rw [hn]
      exact (hwf ed (hfilt ed hed).1).2
  · intro n hn
    rcases a4 n hn with h | h
    · exact i7 n h
    · rcases h with ⟨e', he', hne⟩
      rcases a1 e' he' with h' | ⟨ed, hed, hn'⟩
      · rw [← hne]
        exact i6 e' (hperm.mem_iff.mpr (List.mem_cons_of_mem e h'))
      · rw [← hne, hn']
        exact (hwf ed (hfilt ed hed).1).2

/-- A route returned by the A* loop implies a safe node is reachable. -/
theorem astarLoop_some_reachable (G : RoadGraph) (hfn : ℕ → ℚ) (start : ℕ) :
    ∀ (fuel : ℕ) (queue : List (ℚ × ℚ × ℕ)) (gS : ℕ → Option ℚ)
      (cF : ℕ → Option ℕ) (visited : List ℕ)
      (r : List (ℚ × ℚ) × (ℚ × ℚ × ℚ)),
      (∀ e ∈ queue, Relation.ReflTransGen (GraphStep G) start e.2.2) →
      astarLoop G hfn start fuel queue gS cF visited = some r →
      ∃ s, G.isSafe s = true ∧ Relation.ReflTransGen (GraphStep G) start s := by
  intro fuel
  induction fuel with
  | zero =>
    intro queue gS cF visited r hreach hres
    rw [astarLoop] at hres
    exact Option.noConfusion hres
  | succ fuel ih =>
    intro queue gS cF visited r hreach hres
    rw [astarLoop] at hres
    split at hres
    next => exact Option.noConfusion hres
    next e rest hpop =>
      have hperm := popMin_perm queue e rest hpop
      have hrest : ∀ x ∈ rest, Relation.ReflTransGen (GraphStep G) start x.2.2 :=
        fun x hx => hreach x (hperm.mem_iff.mpr (List.mem_cons_of_mem e hx))
      by_cases hv : e.2.2 ∈ visited
      · rw [if_pos hv] at hres
        exact ih rest gS cF visited r hrest hres
      · rw [if_neg hv] at hres
        by_cases hs : G.isSafe e.2.2 = true
        · exact ⟨e.2.2, hs, hreach e (hperm.mem_iff.mpr (List.mem_cons_self e rest))⟩
        · rw [if_neg hs] at hres
          obtain ⟨a1, _, _, _, _, _⟩ :=
            relax_fold_props hfn (e.2.2 :: visited) e.2.1 e.2.2
              (G.edges.filter (fun ed => ed.1 = e.2.2)) rest gS cF
          refine ih _ _ _ _ r ?_ hres
          intro x hx
          rcases a1 x hx with h | ⟨ed, hed, hn⟩
          · exact hrest x h
          · have hm := List.mem_filter.mp hed
            refine Relation.ReflTransGen.tail
              (hreach e (hperm.mem_iff.mpr (List.mem_cons_self e rest))) ?_
            rw [hn]
            exact ⟨ed, hm.1, of_decide_eq_true hm.2, rfl⟩

/-- When the A* loop reports no route (under the invariant and with enough
fuel), no safe node is reachable. -/
theorem astarLoop_none_complete (G : RoadGraph) (hfn : ℕ → ℚ) (start : ℕ)
    (hwf : ∀ ed ∈ G.edges, ed.1 ∈ G.nodes ∧ ed.2.1 ∈ G.nodes) :
    ∀ (fuel : ℕ) (queue : List (ℚ × ℚ × ℕ)) (gS : ℕ → Option ℚ)
      (cF : ℕ → Option ℕ) (visited : List ℕ),
      AstarInv G start queue gS visited →
      searchPot G queue visited < fuel →
      astarLoop G hfn start fuel queue gS cF visited = none →
      ∀ s, G.isSafe s = true → ¬ Relation.ReflTransGen (GraphStep G) start s := by
  intro fuel
  induction fuel with
  | zero =>
    intro queue gS cF visited hinv hpot
    exact absurd hpot (Nat.not_lt_zero _)
  | succ fuel ih =>
    intro queue gS cF visited hinv hpot hres s hs hreach
    rw [astarLoop] at hres
    split at hres
    next hpop =>
      have hqe : queue = [] := popMin_eq_none queue hpop
      subst hqe
      obtain ⟨i1, i2, i3, i4, _, _, _⟩ := hinv
      have hvis : ∀ n, Relation.ReflTransGen (GraphStep G) start n →
          n ∈ visited := by
        intro n hn
        induction hn with
        | refl =>
          rcases i1 start i4 with h | ⟨e', he', _⟩
          · exact h
          · exact absurd he' (List.not_mem_nil e')
        | tail h1 h2 ih2 =>
          obtain ⟨ed, hed, hsrc, htgt⟩ := h2
          rcases i2 _ ih2 ed hed hsrc with h | h
          · rw [← htgt]; exact h
          · rcases i1 ed.2.1 h with h' | ⟨e', he', _⟩
            · rw [← htgt]; exact h'
            · exact absurd he' (List.not_mem_nil e')
      rw [i3 s (hvis s hreach)] at hs
      exact Bool.noConfusion hs
    next e rest hpop =>
      have hperm := popMin_perm queue e rest hpop
      have hlen : queue.length = rest.length + 1 := by
        rw [hperm.length_eq, List.length_cons]
      by_cases hv : e.2.2 ∈ visited
      · rw [if_pos hv] at hres
        have hinv' : AstarInv G start rest gS visited := by
          obtain ⟨i1, i2, i3, i4, i5, i6, i7⟩ := hinv
          refine ⟨?_, i2, i3, i4, ?_, ?_, i7⟩
          · intro n hn
            rcases i1 n hn with h | ⟨e', he', hne⟩
            · exact Or.inl h
            · rcases List.mem_cons.mp (hperm.mem_iff.mp he') with h' | h'
              · refine Or.inl ?_
                rw [← hne, h']
                exact hv
              · exact Or.inr ⟨e', h', hne⟩
          · exact fun e' he' => i5 e' (hperm.mem_iff.mpr (List.mem_cons_of_mem e he'))
          · exact fun e' he' => i6 e' (hperm.mem_iff.mpr (List.mem_cons_of_mem e he'))
        have hpot' : searchPot G rest visited < fuel := by
          unfold searchPot at hpot ⊢
          omega
        exact ih rest gS cF visited hinv' hpot' hres s hs hreach
      · rw [if_neg hv] at hres
        by_cases hsafe : G.isSafe e.2.2 = true
        · rw [if_pos hsafe] at hres
          exact Option.noConfusion hres
        · rw [if_neg hsafe] at hres
          have hsafe' : G.isSafe e.2.2 = false := by
            revert hsafe
            cases G.isSafe e.2.2 <;> simp
          have hcurmem : e.2.2 ∈ G.nodes :=
            hinv.2.2.2.2.2.1 e (hperm.mem_iff.mpr (List.mem_cons_self e rest))
          have hinv' := expand_preserves G start hfn hwf e rest queue gS cF
            visited hperm hinv hv hsafe'
          have ha6 := (relax_fold_props hfn (e.2.2 :: visited) e.2.1 e.2.2
            (G.edges.filter (fun ed => ed.1 = e.2.2)) rest gS cF).2.2.2.2.2
          have hq'len :
              (expandNode G hfn (e.2.2 :: visited) e.2.1 e.2.2 rest gS cF).1.length ≤
              rest.length + outDeg G e.2.2 := ha6
          have hfact := searchPot_fact G visited e.2.2 hcurmem hv
          have hpot' : searchPot G
              (expandNode G hfn (e.2.2 :: visited) e.2.1 e.2.2 rest gS cF).1
              (e.2.2 :: visited) < fuel := by
            unfold searchPot at hpot ⊢
            omega
          exact ih _ _ _ _ hinv' hpot' hres s hs hreach

/-- C9: find_escape_route returns an absent result exactly when no safe node
is reachable from the start node (and in particular whenever the graph has
zero safe nodes).  Absence is a returned value of the embedding's total
function, mirroring the Python `return None, None` — never an exception. -/
theorem find_escape_route_none_iff (G : RoadGraph) (hfn : ℕ → ℚ) (start : ℕ)
    (hwf : ∀ ed ∈ G.edges, ed.1 ∈ G.nodes ∧ ed.2.1 ∈ G.nodes)
    (hstart : start ∈ G.nodes) :
    (findEscapeRoute G hfn start = none ↔
      ¬ ∃ s, G.isSafe s = true ∧ Relation.ReflTransGen (GraphStep G) start s) ∧
    ((∀ n ∈ G.nodes, G.isSafe n = false) → findEscapeRoute G hfn start = none) := by
  by_cases hsafe0 : G.isSafe start = true
  · rw [findEscapeRoute, if_pos hsafe0]
    constructor
    · exact iff_of_false (by simp)
        (fun hno => hno ⟨start, hsafe0, Relation.ReflTransGen.refl⟩)
    · intro hall
      exact absurd hsafe0 (by simp [hall start hstart])
  · rw [findEscapeRoute, if_neg hsafe0]
    by_cases hemp : G.nodes.filter (fun n => G.isSafe n) = []
    · rw [if_pos hemp]
      have hnone : ∀ n ∈ G.nodes, G.isSafe n = false := by
        intro n hn
        by_contra hc
        have ht : G.isSafe n = true := by
          revert hc
          cases G.isSafe n <;> simp
        have hmem : n ∈ G.nodes.filter (fun n => G.isSafe n) :=
          List.mem_filter.mpr ⟨hn, ht⟩
        rw [hemp] at hmem
        exact List.not_mem_nil n hmem
      constructor
      · refine iff_of_true rfl ?_
        rintro ⟨s, hs, hr⟩
        rw [hnone s (reachable_mem_nodes G hwf start hstart s hr)] at hs
        exact Bool.noConfusion hs
      · intro _
        rfl
    · rw [if_neg hemp]
      have hinit : AstarInv G start [(hfn start, 0, start)]
          (fun n => if n = start then some 0 else none) [] := by
        refine ⟨?_, ?_, ?_, ?_, ?_, ?_, ?_⟩
        · intro n hn
          refine Or.inr ⟨(hfn start, 0, start), List.mem_singleton_self _, ?_⟩
          by_cases h : n = start
          · rw [h]
          · exfalso
            have hn' : (if n = start then some (0 : ℚ) else none).isSome = true := hn
            rw [if_neg h] at hn'
            simp at hn'
        · intro u hu
          exact absurd hu (List.not_mem_nil u)
        · intro u hu
          exact absurd hu (List.not_mem_nil u)
        · show (if start = start then some (0 : ℚ) else none).isSome = true
          rw [if_pos rfl]
          rfl
        · intro e' he'
          rw [List.mem_singleton.mp he']
        · intro e' he'
          rw [List.mem_singleton.mp he']
          exact hstart
        · intro n hn
          by_cases h : n = start
          · rw [h]; exact hstart
          · exfalso
            have hn' : (if n = start then some (0 : ℚ) else none).isSome = true := hn
            rw [if_neg h] at hn'
            simp at hn'
      have hpotinit : searchPot G [(hfn start, 0, start)] [] <
          G.nodes.length + G.edges.length + 2 := by
        unfold searchPot
        have h1 : (G.nodes.toFinset \ List.toFinset []).sum
            (fun u => outDeg G u + 1) =
            G.nodes.toFinset.sum (fun u => outDeg G u) +
              G.nodes.toFinset.sum (fun _ => 1) := by
          rw [show List.toFinset ([] : List ℕ) = ∅ from rfl, Finset.sdiff_empty,
            ← Finset.sum_add_distrib]
        have h2 : G.nodes.toFinset.sum (fun u => outDeg G u) ≤ G.edges.length :=
          sum_filter_length_le G.nodes.toFinset G.edges
        have h3 : G.nodes.toFinset.sum (fun _ => 1) ≤ G.nodes.length := by
          rw [Finset.sum_const, smul_eq_mul, mul_one]
          exact List.toFinset_card_le G.nodes
        rw [List.length_singleton, h1]
        omega
      constructor
      · constructor
        · intro hres
          rintro ⟨s, hs, hr⟩
          exact astarLoop_none_complete G hfn start hwf _ _ _ _ _ hinit
            hpotinit hres s hs hr
        · intro hno
          cases hres : astarLoop G hfn start
              (G.nodes.length + G.edges.length + 2) [(hfn start, 0, start)]
              (fun n => if n = start then some 0 else none) (fun _ => none) [] with
          | none => rfl
          | some r =>
            exact absurd (astarLoop_some_reachable G hfn start _ _ _ _ _ r
              (fun e' he' => by rw [List.mem_singleton.mp he']) hres) hno
      · intro hall
        exfalso
        apply hemp
        apply List.eq_nil_iff_forall_not_mem.mpr
        intro x hx
        have h := List.mem_filter.mp hx
        rw [hall x h.1] at h
        exact Bool.noConfusion h.2

/-- C9 witness: the theorem applies to the concrete two-node graph. -/
theorem find_escape_route_none_iff_witness :
    findEscapeRoute witnessRoadGraph (fun _ => 0) 0 = none ↔
      ¬ ∃ s, witnessRoadGraph.isSafe s = true ∧
        Relation.ReflTransGen (GraphStep witnessRoadGraph) 0 s :=
  (find_escape_route_none_iff witnessRoadGraph (fun _ => 0) 0 (by decide)
    (by decide)).1

end GisSpec
